import Mathlib

/-!
Verification of `nuxt-safe-runtime-config` against its specification.

The development shallowly embeds the core modules of the repository:

* `src/utils/transform.ts` — `toCamelCase`, `getPrefix`, `countPrefixes`,
  `transformEnvVars`, `assignNested`;
* `src/providers/shelve.ts` — `resolveShelveConfig`, `fetchProject`,
  `fetchEnvironment`, `fetchVariables`, `fetchShelveSecrets` and the
  module-level secrets cache (modelled as explicit state);
* `src/module.ts` — `validateRuntimeConfig`, `isStandardSchema`,
  `formatIssue`;
* `src/json-schema-to-ts.ts` — modelled from the specification (the file
  itself is not part of the provided sources).

JavaScript strings are modelled as Lean `String`s operated on through
their character lists (the keys involved are ASCII, where JS UTF-16
semantics and char-list semantics agree).  JavaScript objects are
modelled as insertion-ordered association lists; assigning to an
existing key updates it in place, assigning to a fresh key appends.
A JS `TypeError` (property creation on a string primitive, which the
transform can trigger in strict mode) is modelled by `Option.none`.
-/

namespace SafeRuntimeConfig

/-- ASCII lower-casing of one character, as JS `toLowerCase` acts on ASCII. -/
def asciiLower (c : Char) : Char :=
  if 'A' ≤ c ∧ c ≤ 'Z' then Char.ofNat (c.toNat + 32) else c

/-- ASCII upper-casing of one character (only applied to `a`–`z`). -/
def asciiUpper (c : Char) : Char :=
  if 'a' ≤ c ∧ c ≤ 'z' then Char.ofNat (c.toNat - 32) else c

/-- Is `c` a lowercase ASCII letter (the `[a-z]` of the JS regex)? -/
def isLowerAlpha (c : Char) : Bool :=
  decide ('a' ≤ c ∧ c ≤ 'z')

/-- The global-replace scan of `str.replace(/_([a-z])/g, (_, c) => c.toUpperCase())`:
left-to-right, non-overlapping, each `_x` (x a lowercase letter) becomes `X`. -/
def camelScan : List Char → List Char
  | [] => []
  | '_' :: c :: rest =>
    if isLowerAlpha c then asciiUpper c :: camelScan rest
    else '_' :: camelScan (c :: rest)
  | c :: rest => c :: camelScan rest

/-- `toCamelCase` from `src/utils/transform.ts`:
`str.toLowerCase().replace(/_([a-z])/g, (_, c) => c.toUpperCase())`. -/
def toCamelCase (s : String) : String :=
  ⟨camelScan (s.data.map asciiLower)⟩

/-- `getPrefix` from `src/utils/transform.ts`: `key.split('_')` has more than
one part exactly when the key contains an underscore, and the first part is
the text before the first underscore. -/
def getPrefix (key : String) : Option String :=
  if key.data.contains '_' then some ⟨key.data.takeWhile (fun c => c ≠ '_')⟩
  else none

/-- An environment variable, `{ key, value }` (`src/types.ts`). -/
structure EnvVar where
  key : String
  value : String
  deriving DecidableEq, Repr

/-- `countPrefixes` from `src/utils/transform.ts`, as the counting function
the built `Map` represents: `counts.get(p) || 0` is the number of input
variables whose key yields grouping prefix `p`.  Its `if (prefix)`
truthiness guard never counts a falsy prefix, so for the empty prefix (a
key starting with `_`) the map has no entry and `get("") || 0` is 0. -/
def countPrefixes (vars : List EnvVar) (p : String) : Nat :=
  if p = "" then 0
  else (vars.filter (fun v => getPrefix v.key = some p)).length

/-- A JS value stored in the transformed config: a string, or a nested
plain object (insertion-ordered association list). -/
inductive CVal where
  | str : String → CVal
  | obj : List (String × CVal) → CVal
  deriving Repr

/-- The transformed config object itself. -/
abbrev TransformedConfig := List (String × CVal)

/-- JS object property read: first binding of the key, if any. -/
def getKey (l : List (String × CVal)) (k : String) : Option CVal :=
  match l with
  | [] => none
  | (k', v) :: rest => if k' = k then some v else getKey rest k

/-- JS object property write: update an existing key in place, else append
(insertion order). -/
def setKey (l : List (String × CVal)) (k : String) (v : CVal) :
    List (String × CVal) :=
  match l with
  | [] => [(k, v)]
  | (k', v') :: rest =>
    if k' = k then (k, v) :: rest else (k', v') :: setKey rest k v

/-- JS `key.startsWith(pre)` for ASCII strings. -/
def strStartsWith (s pre : String) : Bool :=
  pre.data.isPrefixOf s.data

/-- JS `s.slice(n)` for ASCII strings. -/
def strDrop (s : String) (n : Nat) : String :=
  ⟨s.data.drop n⟩

/-- `assignNested` from `src/utils/transform.ts`, acting on the `public`
sub-object.  The JS condition is
`prefix && (prefixCounts.get('PUBLIC_' + prefix) || prefixCounts.get('NUXT_PUBLIC_' + prefix) || 0) >= 2`
(the truthiness test rejects an empty prefix, and `||` takes the first
non-zero count).  Writing a property onto a slot that
holds a string primitive throws in strict mode, modelled by `none`. -/
def assignNested (counts : String → Nat) (obj : List (String × CVal))
    (key value : String) : Option (List (String × CVal)) :=
  match getPrefix key with
  | some pre =>
    let a := counts ("PUBLIC_" ++ pre)
    let b := counts ("NUXT_PUBLIC_" ++ pre)
    if pre ≠ "" ∧ (if a ≠ 0 then a else b) ≥ 2 then
      let groupKey := toCamelCase pre
      let rest := strDrop key (pre.length + 1)
      let nestedKey := toCamelCase rest
      match getKey obj groupKey with
      | none => some (setKey obj groupKey (.obj [(nestedKey, .str value)]))
      | some (.obj fields) =>
        some (setKey obj groupKey (.obj (setKey fields nestedKey (.str value))))
      | some (.str _) => none
    else
      some (setKey obj (toCamelCase key) (.str value))
  | none => some (setKey obj (toCamelCase key) (.str value))

/-- One iteration of the `for` loop of `transformEnvVars`: route
`PUBLIC_*` / `NUXT_PUBLIC_*` keys into the `public` sub-object, group a
truthy (non-empty) repeated prefix (`if (prefix && count >= 2)`), otherwise
assign the camel-cased key at the top level.  `result.public ??= {}` keeps an existing string untouched, and
the subsequent property write on that string primitive throws (`none`). -/
def transformStep (counts : String → Nat) (result : TransformedConfig)
    (v : EnvVar) : Option TransformedConfig :=
  if strStartsWith v.key "PUBLIC_" then
    match getKey result "public" with
    | none =>
      (assignNested counts [] (strDrop v.key 7) v.value).map
        (fun fields => setKey result "public" (.obj fields))
    | some (.obj fields) =>
      (assignNested counts fields (strDrop v.key 7) v.value).map
        (fun fields' => setKey result "public" (.obj fields'))
    | some (.str _) => none
  else if strStartsWith v.key "NUXT_PUBLIC_" then
    match getKey result "public" with
    | none =>
      (assignNested counts [] (strDrop v.key 12) v.value).map
        (fun fields => setKey result "public" (.obj fields))
    | some (.obj fields) =>
      (assignNested counts fields (strDrop v.key 12) v.value).map
        (fun fields' => setKey result "public" (.obj fields'))
    | some (.str _) => none
  else
    match getPrefix v.key with
    | some pre =>
      if pre ≠ "" ∧ counts pre ≥ 2 then
        let groupKey := toCamelCase pre
        let nestedKey := toCamelCase (strDrop v.key (pre.length + 1))
        match getKey result groupKey with
        | none => some (setKey result groupKey (.obj [(nestedKey, .str v.value)]))
        | some (.obj fields) =>
          some (setKey result groupKey (.obj (setKey fields nestedKey (.str v.value))))
        | some (.str _) => none
      else
        some (setKey result (toCamelCase v.key) (.str v.value))
    | none => some (setKey result (toCamelCase v.key) (.str v.value))

/-- The `for` loop of `transformEnvVars`, threading the result object. -/
def transformRun (counts : String → Nat) (result : TransformedConfig) :
    List EnvVar → Option TransformedConfig
  | [] => some result
  | v :: rest =>
    match transformStep counts result v with
    | none => none
    | some result' => transformRun counts result' rest

/-- `transformEnvVars` from `src/utils/transform.ts`: count prefixes over the
whole input, then emit each variable in order. -/
def transformEnvVars (vars : List EnvVar) : Option TransformedConfig :=
  transformRun (countPrefixes vars) [] vars

/-! ### Association-list lemmas -/

theorem getKey_setKey_self (l : List (String × CVal)) (k : String) (v : CVal) :
    getKey (setKey l k v) k = some v := by
  induction l with
  | nil => simp [getKey, setKey]
  | cons hd tl ih =>
    obtain ⟨k', v'⟩ := hd
    by_cases h : k' = k
    · simp [getKey, setKey, h]
    · simp [getKey, setKey, h, ih]

theorem getKey_setKey_ne (l : List (String × CVal)) (k k' : String) (v : CVal)
    (h : k' ≠ k) : getKey (setKey l k v) k' = getKey l k' := by
  have h' : ¬(k = k') := fun hh => h hh.symm
  induction l with
  | nil => simp [getKey, setKey, h']
  | cons hd tl ih =>
    obtain ⟨k₀, v₀⟩ := hd
    by_cases h₀ : k₀ = k
    · subst h₀
      simp [getKey, setKey, h']
    · simp only [setKey, if_neg h₀, getKey]
      by_cases h₁ : k₀ = k'
      · simp [h₁]
      · simp [h₁, ih]

theorem setKey_of_not_mem (l : List (String × CVal)) (k : String) (v : CVal)
    (h : k ∉ l.map Prod.fst) : setKey l k v = l ++ [(k, v)] := by
  induction l with
  | nil => simp [setKey]
  | cons hd tl ih =>
    obtain ⟨k₀, v₀⟩ := hd
    simp only [List.map_cons, List.mem_cons, not_or] at h
    have h' : ¬(k₀ = k) := fun hh => h.1 hh.symm
    simp [setKey, h', ih h.2]

theorem getKey_eq_none_of_not_mem (l : List (String × CVal)) (k : String)
    (h : k ∉ l.map Prod.fst) : getKey l k = none := by
  induction l with
  | nil => simp [getKey]
  | cons hd tl ih =>
    obtain ⟨k₀, v₀⟩ := hd
    simp only [List.map_cons, List.mem_cons, not_or] at h
    have h' : ¬(k₀ = k) := fun hh => h.1 hh.symm
    simp [getKey, h', ih h.2]

/-! ### Grouping prefixes never contain an underscore, so the recursive
public-namespace grouping condition of `assignNested` can never be met. -/

theorem getPrefix_no_underscore {k p : String} (h : getPrefix k = some p) :
    '_' ∉ p.data := by
  unfold getPrefix at h
  split at h
  · cases h
    intro hmem
    have := List.mem_takeWhile_imp hmem
    simp at this
  · cases h

theorem countPrefixes_eq_zero_of_underscore (vars : List EnvVar) (q : String)
    (h : '_' ∈ q.data) : countPrefixes vars q = 0 := by
  unfold countPrefixes
  have hq : ¬(q = "") := by
    intro he
    subst he
    exact absurd h (by decide)
  rw [if_neg hq]
  rw [List.length_eq_zero]
  rw [List.filter_eq_nil_iff]
  intro v _ hv
  simp only [decide_eq_true_eq] at hv
  exact getPrefix_no_underscore hv h

theorem underscore_mem_public_append (p : String) :
    '_' ∈ ("PUBLIC_" ++ p).data := by
  have : ("PUBLIC_" ++ p).data = "PUBLIC_".data ++ p.data := rfl
  rw [this]
  apply List.mem_append_left
  decide

theorem underscore_mem_nuxt_public_append (p : String) :
    '_' ∈ ("NUXT_PUBLIC_" ++ p).data := by
  have : ("NUXT_PUBLIC_" ++ p).data = "NUXT_PUBLIC_".data ++ p.data := rfl
  rw [this]
  apply List.mem_append_left
  decide

/-- The grouped branch of `assignNested` is unreachable whenever the count
map comes from `countPrefixes`: counted grouping prefixes never contain an
underscore, while the looked-up keys `PUBLIC_<p>` / `NUXT_PUBLIC_<p>` always
do.  Hence every public-namespace key is assigned flat. -/
theorem assignNested_flat (vars : List EnvVar) (obj : List (String × CVal))
    (key value : String) :
    assignNested (countPrefixes vars) obj key value =
      some (setKey obj (toCamelCase key) (CVal.str value)) := by
  unfold assignNested
  cases hp : getPrefix key with
  | none => rfl
  | some pre =>
    have ha : countPrefixes vars ("PUBLIC_" ++ pre) = 0 :=
      countPrefixes_eq_zero_of_underscore vars _ (underscore_mem_public_append pre)
    have hb : countPrefixes vars ("NUXT_PUBLIC_" ++ pre) = 0 :=
      countPrefixes_eq_zero_of_underscore vars _ (underscore_mem_nuxt_public_append pre)
    simp [ha, hb]

/-! ### Key classification relative to a count map -/

/-- Does the key carry one of the two public-namespace prefixes? -/
def isPublicKey (k : String) : Bool :=
  strStartsWith k "PUBLIC_" || strStartsWith k "NUXT_PUBLIC_"

/-- The prefix-stripped remainder of a public-namespace key (`slice(7)` for
`PUBLIC_*`, `slice(12)` for `NUXT_PUBLIC_*`, in the order the code tests). -/
def stripPublic (k : String) : String :=
  if strStartsWith k "PUBLIC_" then strDrop k 7 else strDrop k 12

/-- Is the key grouped under its prefix (prefix present, truthy, and
counted ≥ 2)? -/
def isGroupedKey (c : String → Nat) (k : String) : Bool :=
  match getPrefix k with
  | some p => p ≠ "" ∧ c p ≥ 2
  | none => false

/-- The top-level key a non-public variable is written to. -/
def topKeyOf (c : String → Nat) (k : String) : String :=
  match getPrefix k with
  | some p => if p ≠ "" ∧ c p ≥ 2 then toCamelCase p else toCamelCase k
  | none => toCamelCase k

/-- The nested key a grouped variable contributes (camel-cased remainder
after the prefix and its separator). -/
def nestedKeyOf (p k : String) : String :=
  toCamelCase (strDrop k (p.length + 1))

/-! ### The four shapes of a non-public `transformEnvVars` loop iteration -/

theorem transformStep_plain (c : String → Nat) (res : TransformedConfig)
    (v : EnvVar) (hpub : isPublicKey v.key = false)
    (hgr : isGroupedKey c v.key = false) :
    transformStep c res v =
      some (setKey res (toCamelCase v.key) (CVal.str v.value)) := by
  simp only [isPublicKey, Bool.or_eq_false_iff] at hpub
  unfold transformStep
  rw [hpub.1, hpub.2]
  simp only [Bool.false_eq_true, if_false]
  unfold isGroupedKey at hgr
  cases hp : getPrefix v.key with
  | none => simp
  | some pre =>
    rw [hp] at hgr
    simp only [decide_eq_false_iff_not] at hgr
    simp [hgr]

theorem transformStep_grouped_new (c : String → Nat) (res : TransformedConfig)
    (v : EnvVar) (p : String) (hpub : isPublicKey v.key = false)
    (hp : getPrefix v.key = some p) (hne : p ≠ "") (hc : c p ≥ 2)
    (hslot : getKey res (toCamelCase p) = none) :
    transformStep c res v =
      some (setKey res (toCamelCase p)
        (CVal.obj [(nestedKeyOf p v.key, CVal.str v.value)])) := by
  simp only [isPublicKey, Bool.or_eq_false_iff] at hpub
  unfold transformStep
  rw [hpub.1, hpub.2]
  simp only [Bool.false_eq_true, if_false]
  rw [hp]
  simp [hne, hc, hslot, nestedKeyOf]

theorem transformStep_grouped_add (c : String → Nat) (res : TransformedConfig)
    (v : EnvVar) (p : String) (fields : List (String × CVal))
    (hpub : isPublicKey v.key = false)
    (hp : getPrefix v.key = some p) (hne : p ≠ "") (hc : c p ≥ 2)
    (hslot : getKey res (toCamelCase p) = some (CVal.obj fields)) :
    transformStep c res v =
      some (setKey res (toCamelCase p)
        (CVal.obj (setKey fields (nestedKeyOf p v.key) (CVal.str v.value)))) := by
  simp only [isPublicKey, Bool.or_eq_false_iff] at hpub
  unfold transformStep
  rw [hpub.1, hpub.2]
  simp only [Bool.false_eq_true, if_false]
  rw [hp]
  simp [hne, hc, hslot, nestedKeyOf]

theorem transformStep_grouped_clash (c : String → Nat) (res : TransformedConfig)
    (v : EnvVar) (p s : String) (hpub : isPublicKey v.key = false)
    (hp : getPrefix v.key = some p) (hne : p ≠ "") (hc : c p ≥ 2)
    (hslot : getKey res (toCamelCase p) = some (CVal.str s)) :
    transformStep c res v = none := by
  simp only [isPublicKey, Bool.or_eq_false_iff] at hpub
  unfold transformStep
  rw [hpub.1, hpub.2]
  simp only [Bool.false_eq_true, if_false]
  rw [hp]
  simp [hne, hc, hslot]

/-! ### The public-namespace loop iteration, with counts from the input
(where `assignNested` always assigns flat). -/

theorem transformStep_public_new (vars : List EnvVar) (res : TransformedConfig)
    (v : EnvVar) (hpub : isPublicKey v.key = true)
    (hslot : getKey res "public" = none) :
    transformStep (countPrefixes vars) res v =
      some (setKey res "public"
        (CVal.obj [(toCamelCase (stripPublic v.key), CVal.str v.value)])) := by
  simp only [isPublicKey, Bool.or_eq_true] at hpub
  unfold transformStep
  rcases hpub with h | h
  · rw [h]
    simp [hslot, assignNested_flat, stripPublic, h, setKey]
  · cases h7 : strStartsWith v.key "PUBLIC_" with
    | true =>
      simp [hslot, assignNested_flat, stripPublic, h7, setKey]
    | false =>
      rw [h]
      simp [hslot, assignNested_flat, stripPublic, h7, setKey]

theorem transformStep_public_add (vars : List EnvVar) (res : TransformedConfig)
    (v : EnvVar) (fields : List (String × CVal)) (hpub : isPublicKey v.key = true)
    (hslot : getKey res "public" = some (CVal.obj fields)) :
    transformStep (countPrefixes vars) res v =
      some (setKey res "public"
        (CVal.obj (setKey fields (toCamelCase (stripPublic v.key))
          (CVal.str v.value)))) := by
  simp only [isPublicKey, Bool.or_eq_true] at hpub
  unfold transformStep
  rcases hpub with h | h
  · rw [h]
    simp [hslot, assignNested_flat, stripPublic, h]
  · cases h7 : strStartsWith v.key "PUBLIC_" with
    | true =>
      simp [hslot, assignNested_flat, stripPublic, h7]
    | false =>
      rw [h]
      simp [hslot, assignNested_flat, stripPublic, h7]

theorem transformStep_public_clash (vars : List EnvVar) (res : TransformedConfig)
    (v : EnvVar) (s : String) (hpub : isPublicKey v.key = true)
    (hslot : getKey res "public" = some (CVal.str s)) :
    transformStep (countPrefixes vars) res v = none := by
  simp only [isPublicKey, Bool.or_eq_true] at hpub
  unfold transformStep
  rcases hpub with h | h
  · rw [h]
    simp [hslot]
  · cases h7 : strStartsWith v.key "PUBLIC_" with
    | true =>
      simp [hslot]
    | false =>
      rw [h]
      simp [hslot]

/-! ### Classification helpers -/

theorem topKeyOf_plain (c : String → Nat) (k : String)
    (h : isGroupedKey c k = false) : topKeyOf c k = toCamelCase k := by
  unfold isGroupedKey at h
  unfold topKeyOf
  cases hp : getPrefix k with
  | none => rfl
  | some p =>
    rw [hp] at h
    simp only [decide_eq_false_iff_not] at h
    simp [h]

theorem topKeyOf_grouped (c : String → Nat) (k p : String)
    (hp : getPrefix k = some p) (hne : p ≠ "") (hc : c p ≥ 2) :
    topKeyOf c k = toCamelCase p := by
  unfold topKeyOf
  rw [hp]
  simp [hne, hc]

theorem isGroupedKey_iff (c : String → Nat) (k : String) :
    isGroupedKey c k = true ↔
      ∃ p, getPrefix k = some p ∧ p ≠ "" ∧ c p ≥ 2 := by
  unfold isGroupedKey
  cases hp : getPrefix k with
  | none => simp
  | some p => simp

/-- A successful non-public loop iteration only writes the variable's own
top-level key; every other key is untouched. -/
theorem transformStep_frame (c : String → Nat) (res res' : TransformedConfig)
    (v : EnvVar) (hpub : isPublicKey v.key = false)
    (hstep : transformStep c res v = some res') (g : String)
    (hg : g ≠ topKeyOf c v.key) : getKey res' g = getKey res g := by
  cases hgr : isGroupedKey c v.key with
  | false =>
    rw [transformStep_plain c res v hpub hgr] at hstep
    cases hstep
    rw [topKeyOf_plain c v.key hgr] at hg
    exact getKey_setKey_ne res _ g _ hg
  | true =>
    obtain ⟨p, hp, hne, hc⟩ := (isGroupedKey_iff c v.key).mp hgr
    rw [topKeyOf_grouped c v.key p hp hne hc] at hg
    cases hslot : getKey res (toCamelCase p) with
    | none =>
      rw [transformStep_grouped_new c res v p hpub hp hne hc hslot] at hstep
      cases hstep
      exact getKey_setKey_ne res _ g _ hg
    | some val =>
      cases val with
      | obj fields =>
        rw [transformStep_grouped_add c res v p fields hpub hp hne hc hslot] at hstep
        cases hstep
        exact getKey_setKey_ne res _ g _ hg
      | str s =>
        rw [transformStep_grouped_clash c res v p s hpub hp hne hc hslot] at hstep
        cases hstep

/-- A successful public-namespace loop iteration only writes `public`. -/
theorem transformStep_public_frame (vars : List EnvVar)
    (res res' : TransformedConfig) (v : EnvVar)
    (hpub : isPublicKey v.key = true)
    (hstep : transformStep (countPrefixes vars) res v = some res') (g : String)
    (hg : g ≠ "public") : getKey res' g = getKey res g := by
  cases hslot : getKey res "public" with
  | none =>
    rw [transformStep_public_new vars res v hpub hslot] at hstep
    cases hstep
    exact getKey_setKey_ne res _ g _ hg
  | some val =>
    cases val with
    | obj fields =>
      rw [transformStep_public_add vars res v fields hpub hslot] at hstep
      cases hstep
      exact getKey_setKey_ne res _ g _ hg
    | str s =>
      rw [transformStep_public_clash vars res v s hpub hslot] at hstep
      cases hstep

/-! ### Depth bound (the output is at most two levels deep) -/

/-- A field whose value is a plain string. -/
def isStrField (kv : String × CVal) : Bool :=
  match kv.2 with
  | .str _ => true
  | .obj _ => false

/-- A value of depth at most one: a string, or an object of strings. -/
def valFlat : CVal → Bool
  | .str _ => true
  | .obj fields => fields.all isStrField

/-- A config of depth at most two: every top-level value is a string or an
object all of whose values are strings. -/
def configFlat (cfg : TransformedConfig) : Bool :=
  cfg.all (fun kv => valFlat kv.2)

theorem all_setKey (P : String × CVal → Bool) (l : List (String × CVal))
    (k : String) (v : CVal) (hl : l.all P = true) (hv : P (k, v) = true) :
    (setKey l k v).all P = true := by
  induction l with
  | nil => simp [setKey, hv]
  | cons hd tl ih =>
    obtain ⟨k₀, v₀⟩ := hd
    simp only [List.all_cons, Bool.and_eq_true] at hl
    by_cases h : k₀ = k
    · simp [setKey, h, hv, hl.2]
    · simp [setKey, h, hl.1, ih hl.2]

theorem configFlat_getKey (cfg : TransformedConfig) (g : String) (val : CVal)
    (hflat : configFlat cfg = true) (h : getKey cfg g = some val) :
    valFlat val = true := by
  induction cfg with
  | nil => simp [getKey] at h
  | cons hd tl ih =>
    obtain ⟨k₀, v₀⟩ := hd
    simp only [configFlat, List.all_cons, Bool.and_eq_true] at hflat
    simp only [getKey] at h
    by_cases hk : k₀ = g
    · rw [if_pos hk] at h
      cases h
      exact hflat.1
    · rw [if_neg hk] at h
      exact ih hflat.2 h

theorem transformStep_configFlat (vars : List EnvVar)
    (res res' : TransformedConfig) (v : EnvVar)
    (hstep : transformStep (countPrefixes vars) res v = some res')
    (hflat : configFlat res = true) : configFlat res' = true := by
  cases hpub : isPublicKey v.key with
  | true =>
    cases hslot : getKey res "public" with
    | none =>
      rw [transformStep_public_new vars res v hpub hslot] at hstep
      cases hstep
      exact all_setKey _ res _ _ hflat (by simp [valFlat, isStrField])
    | some val =>
      cases val with
      | obj fields =>
        rw [transformStep_public_add vars res v fields hpub hslot] at hstep
        cases hstep
        have hf : fields.all isStrField = true :=
          configFlat_getKey res "public" _ hflat hslot
        exact all_setKey _ res _ _ hflat
          (all_setKey isStrField fields _ _ hf (by simp [isStrField]))
      | str s =>
        rw [transformStep_public_clash vars res v s hpub hslot] at hstep
        cases hstep
  | false =>
    cases hgr : isGroupedKey (countPrefixes vars) v.key with
    | false =>
      rw [transformStep_plain _ res v hpub hgr] at hstep
      cases hstep
      exact all_setKey _ res _ _ hflat (by simp [valFlat])
    | true =>
      obtain ⟨p, hp, hne, hc⟩ := (isGroupedKey_iff _ v.key).mp hgr
      cases hslot : getKey res (toCamelCase p) with
      | none =>
        rw [transformStep_grouped_new _ res v p hpub hp hne hc hslot] at hstep
        cases hstep
        exact all_setKey _ res _ _ hflat (by simp [valFlat, isStrField])
      | some val =>
        cases val with
        | obj fields =>
          rw [transformStep_grouped_add _ res v p fields hpub hp hne hc hslot] at hstep
          cases hstep
          have hf : fields.all isStrField = true :=
            configFlat_getKey res _ _ hflat hslot
          exact all_setKey _ res _ _ hflat
            (all_setKey isStrField fields _ _ hf (by simp [isStrField]))
        | str s =>
          rw [transformStep_grouped_clash _ res v p s hpub hp hne hc hslot] at hstep
          cases hstep

theorem transformRun_configFlat (vars : List EnvVar) (l : List EnvVar)
    (res out : TransformedConfig)
    (h : transformRun (countPrefixes vars) res l = some out)
    (hflat : configFlat res = true) : configFlat out = true := by
  induction l generalizing res with
  | nil =>
    simp only [transformRun] at h
    cases h
    exact hflat
  | cons v tl ih =>
    simp only [transformRun] at h
    cases hstep : transformStep (countPrefixes vars) res v with
    | none => rw [hstep] at h; cases h
    | some res' =>
      rw [hstep] at h
      exact ih res' h (transformStep_configFlat vars res res' v hstep hflat)

/-! ### Claim C10 and C8, claim C1 -/

/-- C10: for every input sequence of EnvVars, a produced TransformedConfig
has nesting depth at most two: every top-level value is either a string or
an object all of whose values are strings (so in particular every value
inside the `public` sub-tree is a string). -/
theorem C10_transformEnvVars_depth_le_two (vars : List EnvVar)
    (out : TransformedConfig) (h : transformEnvVars vars = some out) :
    configFlat out = true :=
  transformRun_configFlat vars vars [] out h rfl

/-- Witness for C10 at a concrete input. -/
theorem C10_transformEnvVars_depth_le_two_witness :
    configFlat [("github", CVal.obj [("clientId", CVal.str "a"),
      ("clientSecret", CVal.str "b")]), ("public", CVal.obj
      [("apiUrl", CVal.str "u")])] = true :=
  C10_transformEnvVars_depth_le_two
    [⟨"GITHUB_CLIENT_ID", "a"⟩, ⟨"GITHUB_CLIENT_SECRET", "b"⟩,
     ⟨"PUBLIC_API_URL", "u"⟩] _ rfl

/-- C8: `transformEnvVars` maps `{DATABASE_URL: v1}` to `{databaseUrl: v1}`,
`{GITHUB_CLIENT_ID: a, GITHUB_CLIENT_SECRET: b}` to
`{github: {clientId: a, clientSecret: b}}`, and `{PUBLIC_API_URL: v}` to
`{public: {apiUrl: v}}`. -/
theorem C8_transformEnvVars_round_trip (v1 a b v : String) :
    transformEnvVars [⟨"DATABASE_URL", v1⟩] =
        some [("databaseUrl", CVal.str v1)] ∧
    transformEnvVars [⟨"GITHUB_CLIENT_ID", a⟩, ⟨"GITHUB_CLIENT_SECRET", b⟩] =
        some [("github", CVal.obj [("clientId", CVal.str a),
          ("clientSecret", CVal.str b)])] ∧
    transformEnvVars [⟨"PUBLIC_API_URL", v⟩] =
        some [("public", CVal.obj [("apiUrl", CVal.str v)])] :=
  ⟨rfl, rfl, rfl⟩

/-- C1 counterexample: two public keys `PUBLIC_STRIPE_KEY` and
`PUBLIC_STRIPE_SECRET` share the prefix-stripped grouping prefix `STRIPE`,
yet no camel-cased `stripe` group is formed inside `public`: the public
sub-tree stays flat. -/
theorem C1_counterexample :
    transformEnvVars [⟨"PUBLIC_STRIPE_KEY", "pk"⟩,
        ⟨"PUBLIC_STRIPE_SECRET", "sk"⟩] =
      some [("public", CVal.obj [("stripeKey", CVal.str "pk"),
        ("stripeSecret", CVal.str "sk")])] ∧
    getKey [("stripeKey", CVal.str "pk"), ("stripeSecret", CVal.str "sk")]
      "stripe" = none :=
  ⟨rfl, rfl⟩

/-- C1 amended: within the `public` sub-tree no recursive grouping ever
happens.  `assignNested` looks its grouping condition up at the keys
`PUBLIC_<p>` / `NUXT_PUBLIC_<p>`, which contain an underscore, while the
prefix-count map only counts underscore-free leading tokens, so the count is
always zero and every public key is assigned flat as its camel-cased
prefix-stripped remainder. -/
theorem C1_assignNested_always_flat (vars : List EnvVar)
    (obj : List (String × CVal)) (key value : String) :
    assignNested (countPrefixes vars) obj key value =
      some (setKey obj (toCamelCase key) (CVal.str value)) :=
  assignNested_flat vars obj key value

/-! ### Run-level lemmas for the grouping characterization -/

/-- Keys no remaining (non-public) variable targets are never changed. -/
theorem transformRun_frame (c : String → Nat) (l : List EnvVar)
    (res out : TransformedConfig) (g : String)
    (hnp : ∀ v ∈ l, isPublicKey v.key = false)
    (hng : ∀ v ∈ l, topKeyOf c v.key ≠ g)
    (h : transformRun c res l = some out) : getKey out g = getKey res g := by
  induction l generalizing res with
  | nil =>
    simp only [transformRun] at h
    cases h
    rfl
  | cons w tl ih =>
    simp only [transformRun] at h
    cases hstep : transformStep c res w with
    | none => rw [hstep] at h; cases h
    | some res' =>
      rw [hstep] at h
      have hfr := transformStep_frame c res res' w
        (hnp w (List.mem_cons_self w tl)) hstep g
        (fun hh => hng w (List.mem_cons_self w tl) hh.symm)
      have hrec := ih res' (fun v hv => hnp v (List.mem_cons_of_mem w hv))
        (fun v hv => hng v (List.mem_cons_of_mem w hv)) h
      rw [hrec, hfr]

/-- As long as no remaining grouped variable's top-level key currently holds
a string, the loop never throws. -/
theorem transformRun_total (c : String → Nat) (l : List EnvVar)
    (res : TransformedConfig)
    (hnp : ∀ v ∈ l, isPublicKey v.key = false)
    (hinv : ∀ v ∈ l, isGroupedKey c v.key = true →
      ∀ s, getKey res (topKeyOf c v.key) ≠ some (CVal.str s))
    (hdisj : ∀ v ∈ l, ∀ w ∈ l, isGroupedKey c v.key = true →
      isGroupedKey c w.key = false → topKeyOf c v.key ≠ topKeyOf c w.key) :
    ∃ out, transformRun c res l = some out := by
  induction l generalizing res with
  | nil => exact ⟨res, rfl⟩
  | cons w tl ih =>
    have hw : w ∈ w :: tl := List.mem_cons_self w tl
    have hnpw := hnp w hw
    cases hgr : isGroupedKey c w.key with
    | false =>
      have hstep := transformStep_plain c res w hnpw hgr
      have htail := ih (setKey res (toCamelCase w.key) (CVal.str w.value))
        (fun v hv => hnp v (List.mem_cons_of_mem w hv))
        (fun v hv hvg s => by
          have hne : topKeyOf c v.key ≠ toCamelCase w.key := by
            rw [← topKeyOf_plain c w.key hgr]
            exact hdisj v (List.mem_cons_of_mem w hv) w hw hvg hgr
          rw [getKey_setKey_ne res _ _ _ hne]
          exact hinv v (List.mem_cons_of_mem w hv) hvg s)
        (fun v hv w' hw' => hdisj v (List.mem_cons_of_mem w hv)
          w' (List.mem_cons_of_mem w hw'))
      obtain ⟨out, hout⟩ := htail
      refine ⟨out, ?_⟩
      simp only [transformRun, hstep]
      exact hout
    | true =>
      obtain ⟨p, hp, hne, hc⟩ := (isGroupedKey_iff c w.key).mp hgr
      have htk : topKeyOf c w.key = toCamelCase p := topKeyOf_grouped c w.key p hp hne hc
      have hres' : ∃ res', transformStep c res w = some res' ∧
          (∃ fs, getKey res' (toCamelCase p) = some (CVal.obj fs)) ∧
          (∀ g, g ≠ toCamelCase p → getKey res' g = getKey res g) := by
        cases hslot : getKey res (toCamelCase p) with
        | none =>
          exact ⟨_, transformStep_grouped_new c res w p hnpw hp hne hc hslot,
            ⟨_, getKey_setKey_self res _ _⟩, fun g hg => getKey_setKey_ne res _ _ _ hg⟩
        | some val =>
          cases val with
          | obj fields =>
            exact ⟨_, transformStep_grouped_add c res w p fields hnpw hp hne hc hslot,
              ⟨_, getKey_setKey_self res _ _⟩, fun g hg => getKey_setKey_ne res _ _ _ hg⟩
          | str s =>
            exact absurd hslot (by
              rw [← htk]
              exact hinv w hw hgr s)
      obtain ⟨res', hstep, ⟨fs', hfs'⟩, hframe⟩ := hres'
      have htail := ih res'
        (fun v hv => hnp v (List.mem_cons_of_mem w hv))
        (fun v hv hvg s => by
          by_cases hvk : topKeyOf c v.key = toCamelCase p
          · rw [hvk, hfs']
            intro hcontra
            cases hcontra
          · rw [hframe _ hvk]
            exact hinv v (List.mem_cons_of_mem w hv) hvg s)
        (fun v hv w' hw' => hdisj v (List.mem_cons_of_mem w hv)
          w' (List.mem_cons_of_mem w hw'))
      obtain ⟨out, hout⟩ := htail
      refine ⟨out, ?_⟩
      simp only [transformRun, hstep]
      exact hout

/-- The nested entries a prefix contributes, in input order. -/
def groupEntries (l : List EnvVar) (p : String) : List (String × CVal) :=
  (l.filter (fun v => getPrefix v.key = some p)).map
    (fun v => (nestedKeyOf p v.key, CVal.str v.value))

theorem transformRun_group (c : String → Nat) (p : String) (l : List EnvVar)
    (res out : TransformedConfig) (fs : List (String × CVal))
    (hne : p ≠ "") (hc : c p ≥ 2)
    (hnp : ∀ v ∈ l, isPublicKey v.key = false)
    (htgt : ∀ v ∈ l, topKeyOf c v.key = toCamelCase p → getPrefix v.key = some p)
    (hfresh : (fs.map Prod.fst ++
      ((l.filter (fun v => getPrefix v.key = some p)).map
        (fun v => nestedKeyOf p v.key))).Nodup)
    (hslot : getKey res (toCamelCase p) = some (CVal.obj fs) ∨
      (getKey res (toCamelCase p) = none ∧ fs = []))
    (h : transformRun c res l = some out) :
    getKey out (toCamelCase p) = some (CVal.obj (fs ++ groupEntries l p)) ∨
      (getKey out (toCamelCase p) = none ∧ fs ++ groupEntries l p = []) := by
  induction l generalizing res fs with
  | nil =>
    simp only [transformRun] at h
    cases h
    simp only [groupEntries, List.filter_nil, List.map_nil, List.append_nil]
    exact hslot
  | cons w tl ih =>
    simp only [transformRun] at h
    cases hstep : transformStep c res w with
    | none => rw [hstep] at h; cases h
    | some res' =>
      rw [hstep] at h
      have hw : w ∈ w :: tl := List.mem_cons_self w tl
      have hnpw := hnp w hw
      by_cases hwp : getPrefix w.key = some p
      · -- w joins the group
        have hwtop : transformStep c res w =
            some (setKey res (toCamelCase p)
              (CVal.obj (fs ++ [(nestedKeyOf p w.key, CVal.str w.value)]))) := by
          rcases hslot with hobj | ⟨hnone, hfs⟩
          · rw [transformStep_grouped_add c res w p fs hnpw hwp hne hc hobj]
            have hnk : nestedKeyOf p w.key ∉ fs.map Prod.fst := by
              intro hmem
              have hmem' : nestedKeyOf p w.key ∈
                  ((w :: tl).filter (fun v => getPrefix v.key = some p)).map
                    (fun v => nestedKeyOf p v.key) := by
                have : w ∈ (w :: tl).filter (fun v => getPrefix v.key = some p) := by
                  rw [List.mem_filter]
                  exact ⟨hw, by simp [hwp]⟩
                exact List.mem_map_of_mem _ this
              exact (List.disjoint_of_nodup_append hfresh) hmem hmem'
            rw [setKey_of_not_mem fs _ _ hnk]
          · subst hfs
            rw [transformStep_grouped_new c res w p hnpw hwp hne hc hnone]
            rfl
        rw [hwtop] at hstep
        injection hstep with hinj
        subst hinj
        have hfilter : (w :: tl).filter (fun v => getPrefix v.key = some p) =
            w :: tl.filter (fun v => getPrefix v.key = some p) := by
          simp [List.filter_cons, hwp]
        have hfresh' : ((fs ++ [(nestedKeyOf p w.key, CVal.str w.value)]).map
            Prod.fst ++ ((tl.filter (fun v => getPrefix v.key = some p)).map
              (fun v => nestedKeyOf p v.key))).Nodup := by
          rw [hfilter] at hfresh
          simp only [List.map_append, List.map_cons, List.map_nil] at hfresh ⊢
          rw [List.append_assoc]
          simpa using hfresh
        have hrec := ih _ (fs ++ [(nestedKeyOf p w.key, CVal.str w.value)])
          (fun v hv => hnp v (List.mem_cons_of_mem w hv))
          (fun v hv => htgt v (List.mem_cons_of_mem w hv))
          hfresh'
          (Or.inl (getKey_setKey_self res _ _)) h
        rw [groupEntries, hfilter]
        simp only [List.map_cons]
        rcases hrec with hrec | ⟨hrec, hemp⟩
        · left
          rw [hrec, List.append_assoc]
          rfl
        · exact absurd hemp (by simp)
      · -- w writes elsewhere
        have hwne : topKeyOf c w.key ≠ toCamelCase p := by
          intro hh
          exact hwp (htgt w hw hh)
        have hfr := transformStep_frame c res res' w hnpw hstep
          (toCamelCase p) (fun hh => hwne hh.symm)
        have hfilter : (w :: tl).filter (fun v => getPrefix v.key = some p) =
            tl.filter (fun v => getPrefix v.key = some p) := by
          simp [List.filter_cons, hwp]
        have hrec := ih res' fs
          (fun v hv => hnp v (List.mem_cons_of_mem w hv))
          (fun v hv => htgt v (List.mem_cons_of_mem w hv))
          (by rw [hfilter] at hfresh; exact hfresh)
          (by rw [hfr]; exact hslot) h
        rw [groupEntries, hfilter]
        exact hrec

/-- An ungrouped (non-public) variable that is the unique writer of its
top-level key ends up there, camel-cased, with its value. -/
theorem transformRun_plain_val (c : String → Nat) (l : List EnvVar)
    (res out : TransformedConfig) (v₀ : EnvVar)
    (hmem : v₀ ∈ l)
    (hnp : ∀ v ∈ l, isPublicKey v.key = false)
    (hgr : isGroupedKey c v₀.key = false)
    (huniq : ∀ v ∈ l, topKeyOf c v.key = topKeyOf c v₀.key → v.key = v₀.key)
    (hnodup : (l.map EnvVar.key).Nodup)
    (h : transformRun c res l = some out) :
    getKey out (toCamelCase v₀.key) = some (CVal.str v₀.value) := by
  induction l generalizing res with
  | nil => cases hmem
  | cons w tl ih =>
    simp only [transformRun] at h
    cases hstep : transformStep c res w with
    | none => rw [hstep] at h; cases h
    | some res' =>
      rw [hstep] at h
      have hw : w ∈ w :: tl := List.mem_cons_self w tl
      simp only [List.map_cons, List.nodup_cons] at hnodup
      by_cases hwv : w = v₀
      · subst hwv
        rw [transformStep_plain c res w (hnp w hw) hgr] at hstep
        injection hstep with hinj
        subst hinj
        have hframe := transformRun_frame c tl _ out (toCamelCase w.key)
          (fun v hv => hnp v (List.mem_cons_of_mem w hv))
          (fun v hv hh => by
            have hkey : v.key = w.key := by
              apply huniq v (List.mem_cons_of_mem w hv)
              rw [topKeyOf_plain c w.key hgr]
              exact hh
            exact hnodup.1 (hkey ▸ List.mem_map_of_mem EnvVar.key hv)) h
        rw [hframe]
        exact getKey_setKey_self res _ _
      · have hmem' : v₀ ∈ tl := by
          cases hmem with
          | head => exact absurd rfl hwv
          | tail _ hh => exact hh
        exact ih res' hmem' (fun v hv => hnp v (List.mem_cons_of_mem w hv))
          (fun v hv => huniq v (List.mem_cons_of_mem w hv)) hnodup.2 h

/-- A key that no grouped variable targets can never come to hold an
object: plain writes only store strings. -/
theorem transformRun_no_group (c : String → Nat) (l : List EnvVar)
    (res out : TransformedConfig) (g : String)
    (hnp : ∀ v ∈ l, isPublicKey v.key = false)
    (hng : ∀ v ∈ l, isGroupedKey c v.key = true → topKeyOf c v.key ≠ g)
    (hres : ∀ fs, getKey res g ≠ some (CVal.obj fs))
    (h : transformRun c res l = some out) :
    ∀ fs, getKey out g ≠ some (CVal.obj fs) := by
  induction l generalizing res with
  | nil =>
    simp only [transformRun] at h
    cases h
    exact hres
  | cons w tl ih =>
    simp only [transformRun] at h
    cases hstep : transformStep c res w with
    | none => rw [hstep] at h; cases h
    | some res' =>
      rw [hstep] at h
      have hw : w ∈ w :: tl := List.mem_cons_self w tl
      have hnpw := hnp w hw
      refine ih res' (fun v hv => hnp v (List.mem_cons_of_mem w hv))
        (fun v hv => hng v (List.mem_cons_of_mem w hv)) ?_ h
      cases hgr : isGroupedKey c w.key with
      | true =>
        have hfr := transformStep_frame c res res' w hnpw hstep g
          (fun hh => hng w hw hgr hh.symm)
        rw [hfr]
        exact hres
      | false =>
        rw [transformStep_plain c res w hnpw hgr] at hstep
        injection hstep with hinj
        subst hinj
        intro fs
        by_cases hk : g = toCamelCase w.key
        · subst hk
          rw [getKey_setKey_self res _ _]
          intro hcontra
          cases hcontra
        · rw [getKey_setKey_ne res _ _ _ hk]
          exact hres fs

theorem isGroupedKey_congr (c : String → Nat) (k k' : String)
    (h : getPrefix k = getPrefix k') : isGroupedKey c k = isGroupedKey c k' := by
  unfold isGroupedKey
  rw [h]

theorem countPrefixes_pos_ne_empty (vars : List EnvVar) (p : String)
    (h : 0 < countPrefixes vars p) : p ≠ "" := by
  intro he
  subst he
  simp [countPrefixes] at h

theorem countPrefixes_pos_mem (vars : List EnvVar) (p : String)
    (h : 0 < countPrefixes vars p) :
    ∃ v, v ∈ vars ∧ getPrefix v.key = some p := by
  have hne := countPrefixes_pos_ne_empty vars p h
  unfold countPrefixes at h
  rw [if_neg hne] at h
  rw [List.length_pos] at h
  obtain ⟨v, hv⟩ := List.exists_mem_of_ne_nil _ h
  rw [List.mem_filter] at hv
  exact ⟨v, hv.1, by simpa using hv.2⟩

theorem groupEntries_length (vars : List EnvVar) (p : String)
    (hne : p ≠ "") :
    (groupEntries vars p).length = countPrefixes vars p := by
  simp [groupEntries, countPrefixes, hne]

/-- No camel-cased grouped prefix coincides with the camel form of a
once-occurring prefix (a decidable side condition of the amended C3). -/
def onceVsGroupCamelOk (vars : List EnvVar) : Bool :=
  vars.all fun v => vars.all fun w =>
    match getPrefix v.key, getPrefix w.key with
    | some p, some q =>
      !((countPrefixes vars p == 1) && (decide (countPrefixes vars q ≥ 2)) &&
        (toCamelCase q == toCamelCase p))
    | _, _ => true

theorem onceVsGroupCamelOk_spec (vars : List EnvVar)
    (h : onceVsGroupCamelOk vars = true) :
    ∀ v ∈ vars, ∀ w ∈ vars, ∀ p q, getPrefix v.key = some p →
      getPrefix w.key = some q → countPrefixes vars p = 1 →
      countPrefixes vars q ≥ 2 → toCamelCase q ≠ toCamelCase p := by
  intro v hv w hw p q hpv hqw h1 h2
  have hall := List.all_eq_true.mp (List.all_eq_true.mp h v hv) w hw
  rw [hpv, hqw] at hall
  simp only [Bool.not_eq_eq_eq_not, Bool.not_true, Bool.and_eq_false_imp,
    Bool.and_eq_true, beq_iff_eq, decide_eq_true_eq, beq_eq_false_iff_ne,
    ne_eq] at hall
  exact hall ⟨h1, h2⟩

/-- C3 counterexample: in the input `[PUBLIC_API_URL ↦ v]` the grouping
prefix `PUBLIC` occurs in exactly one key, yet the output carries the
nested group `public` and the key is not assigned camel-cased at the top
level. -/
theorem C3_counterexample :
    countPrefixes [⟨"PUBLIC_API_URL", "v"⟩] "PUBLIC" = 1 ∧
    transformEnvVars [⟨"PUBLIC_API_URL", "v"⟩] =
      some [("public", CVal.obj [("apiUrl", CVal.str "v")])] ∧
    getKey [("public", CVal.obj [("apiUrl", CVal.str "v")])]
      (toCamelCase "PUBLIC_API_URL") = none :=
  ⟨rfl, rfl, rfl⟩

/-- C3 amended: restricted to inputs without public-namespace keys, with
pairwise-distinct keys, and camel-casing injective enough that distinct
write targets do not collide (two keys share a top-level target only when
they share a grouped prefix; in-group remainders are distinct; grouped
prefixes' camel forms avoid those of once-occurring prefixes), the
two-occurrence rule holds: a prefix counted ≥ 2 yields exactly one nested
group holding, in input order, all and only the camel-cased remainders of
the keys carrying it; a prefix counted once yields no nested group and its
key is assigned camel-cased at the top level, as is every ungrouped key. -/
theorem C3_transformEnvVars_grouping (vars : List EnvVar)
    (hnodup : (vars.map EnvVar.key).Nodup)
    (hnp : ∀ v ∈ vars, isPublicKey v.key = false)
    (htop : ∀ v ∈ vars, ∀ w ∈ vars,
      topKeyOf (countPrefixes vars) v.key = topKeyOf (countPrefixes vars) w.key →
      v.key = w.key ∨ (getPrefix v.key = getPrefix w.key ∧
        isGroupedKey (countPrefixes vars) v.key = true))
    (hnest : ∀ v ∈ vars, ∀ w ∈ vars, v.key ≠ w.key → ∀ p,
      getPrefix v.key = some p → getPrefix w.key = some p →
      nestedKeyOf p v.key ≠ nestedKeyOf p w.key)
    (honce : onceVsGroupCamelOk vars = true) :
    ∃ out, transformEnvVars vars = some out ∧
      (∀ p, countPrefixes vars p ≥ 2 →
        getKey out (toCamelCase p) = some (CVal.obj (groupEntries vars p))) ∧
      (∀ p, countPrefixes vars p = 1 →
        ∀ fs, getKey out (toCamelCase p) ≠ some (CVal.obj fs)) ∧
      (∀ v ∈ vars, isGroupedKey (countPrefixes vars) v.key = false →
        getKey out (toCamelCase v.key) = some (CVal.str v.value)) := by
  have hkeyinj : ∀ x ∈ vars, ∀ y ∈ vars, x.key = y.key → x = y :=
    List.inj_on_of_nodup_map hnodup
  have hdisj : ∀ v ∈ vars, ∀ w ∈ vars,
      isGroupedKey (countPrefixes vars) v.key = true →
      isGroupedKey (countPrefixes vars) w.key = false →
      topKeyOf (countPrefixes vars) v.key ≠ topKeyOf (countPrefixes vars) w.key := by
    intro v hv w hw hvg hwg heq
    rcases htop v hv w hw heq with hk | ⟨hpk, _⟩
    · rw [hk] at hvg
      rw [hvg] at hwg
      cases hwg
    · rw [isGroupedKey_congr _ _ _ hpk] at hvg
      rw [hvg] at hwg
      cases hwg
  obtain ⟨out, hout⟩ := transformRun_total (countPrefixes vars) vars [] hnp
    (fun v _ _ s h => by simp [getKey] at h) hdisj
  refine ⟨out, hout, ?_, ?_, ?_⟩
  · -- each repeated prefix yields exactly its group
    intro p hp
    have hpne : p ≠ "" := countPrefixes_pos_ne_empty vars p (by omega)
    obtain ⟨w₀, hw₀, hw₀p⟩ := countPrefixes_pos_mem vars p (by omega)
    have htgt : ∀ v ∈ vars,
        topKeyOf (countPrefixes vars) v.key = toCamelCase p →
        getPrefix v.key = some p := by
      intro v hv hvt
      have hw₀t : topKeyOf (countPrefixes vars) w₀.key = toCamelCase p :=
        topKeyOf_grouped _ _ p hw₀p hpne hp
      rcases htop v hv w₀ hw₀ (by rw [hvt, hw₀t]) with hk | ⟨hpk, _⟩
      · rw [hk, hw₀p]
      · rw [hpk, hw₀p]
    have hmembers : ((vars.filter (fun v => getPrefix v.key = some p)).map
        (fun v => nestedKeyOf p v.key)).Nodup := by
      refine List.Nodup.map_on ?_ ((List.Nodup.of_map _ hnodup).filter _)
      intro x hx y hy hxy
      rw [List.mem_filter] at hx hy
      by_cases hk : x.key = y.key
      · exact hkeyinj x hx.1 y hy.1 hk
      · exact absurd hxy (hnest x hx.1 y hy.1 hk p
          (by simpa using hx.2) (by simpa using hy.2))
    have hgroup := transformRun_group (countPrefixes vars) p vars [] out []
      hpne hp hnp htgt (by simpa using hmembers) (Or.inr ⟨rfl, rfl⟩) hout
    rcases hgroup with hgroup | ⟨_, hemp⟩
    · simpa using hgroup
    · exfalso
      have : (groupEntries vars p).length = 0 := by
        simp only [List.nil_append] at hemp
        rw [hemp]
        rfl
      rw [groupEntries_length vars p hpne] at this
      omega
  · -- a once-occurring prefix never yields a group
    intro p hp fs
    obtain ⟨w₀, hw₀, hw₀p⟩ := countPrefixes_pos_mem vars p (by omega)
    refine transformRun_no_group (countPrefixes vars) vars [] out
      (toCamelCase p) hnp ?_ (fun fs' h => by simp [getKey] at h) hout fs
    intro v hv hvg
    obtain ⟨q, hq, hneq, hcq⟩ := (isGroupedKey_iff _ v.key).mp hvg
    rw [topKeyOf_grouped _ _ q hq hneq hcq]
    exact onceVsGroupCamelOk_spec vars honce w₀ hw₀ v hv p q hw₀p hq hp hcq
  · -- ungrouped keys land camel-cased at the top level
    intro v₀ hv₀ hgr
    refine transformRun_plain_val (countPrefixes vars) vars [] out v₀ hv₀
      hnp hgr ?_ hnodup hout
    intro v hv hvt
    rcases htop v hv v₀ hv₀ hvt with hk | ⟨hpk, hvg⟩
    · exact hk
    · rw [isGroupedKey_congr _ _ _ hpk] at hvg
      rw [hvg] at hgr
      cases hgr

/-- Witness for C3 (amended) at a concrete well-formed input. -/
theorem C3_transformEnvVars_grouping_witness :
    ∃ out, transformEnvVars
        [⟨"GITHUB_CLIENT_ID", "a"⟩, ⟨"GITHUB_CLIENT_SECRET", "b"⟩,
         ⟨"DATABASE_URL", "d"⟩] = some out ∧
      (∀ p, countPrefixes [⟨"GITHUB_CLIENT_ID", "a"⟩,
          ⟨"GITHUB_CLIENT_SECRET", "b"⟩, ⟨"DATABASE_URL", "d"⟩] p ≥ 2 →
        getKey out (toCamelCase p) = some (CVal.obj (groupEntries
          [⟨"GITHUB_CLIENT_ID", "a"⟩, ⟨"GITHUB_CLIENT_SECRET", "b"⟩,
           ⟨"DATABASE_URL", "d"⟩] p))) ∧
      (∀ p, countPrefixes [⟨"GITHUB_CLIENT_ID", "a"⟩,
          ⟨"GITHUB_CLIENT_SECRET", "b"⟩, ⟨"DATABASE_URL", "d"⟩] p = 1 →
        ∀ fs, getKey out (toCamelCase p) ≠ some (CVal.obj fs)) ∧
      (∀ v ∈ [⟨"GITHUB_CLIENT_ID", "a"⟩, ⟨"GITHUB_CLIENT_SECRET", "b"⟩,
          (⟨"DATABASE_URL", "d"⟩ : EnvVar)],
        isGroupedKey (countPrefixes [⟨"GITHUB_CLIENT_ID", "a"⟩,
          ⟨"GITHUB_CLIENT_SECRET", "b"⟩, ⟨"DATABASE_URL", "d"⟩]) v.key = false →
        getKey out (toCamelCase v.key) = some (CVal.str v.value)) :=
  C3_transformEnvVars_grouping
    [⟨"GITHUB_CLIENT_ID", "a"⟩, ⟨"GITHUB_CLIENT_SECRET", "b"⟩,
     ⟨"DATABASE_URL", "d"⟩]
    (by decide) (by decide) (by decide) (by decide) (by decide)

/-! ## The Shelve provider (`src/providers/shelve.ts`)

The remote `$fetch` calls, the wall clock and the SHA-256 token digest are
modelled as explicit parameters; the module-level `secretsCache` `Map` is
threaded as explicit state (an insertion-ordered association list, like JS
`Map`). -/

/-- `ResolvedShelveConfig` (`src/types.ts`). -/
structure ResolvedShelveConfig where
  project : String
  slug : String
  environment : String
  url : String
  token : String
  deriving Repr, DecidableEq

/-- The provider options fields `resolveShelveConfig` consults
(`ShelveProviderOptions`, `src/types.ts`). -/
structure ShelveProviderOptions where
  project : Option String := none
  slug : Option String := none
  team : Option String := none
  environment : Option String := none
  url : Option String := none
  deriving Repr

/-- The ambient sources `resolveShelveConfig` reads: `process.env`, the
`package.json` name (`getPackageName`, `null` on a missing/invalid manifest
or empty name) and the `~/.shelve` rc-file token (`getUserToken`, `null`
when missing/unreadable/blank). -/
structure ResolveSources where
  env : String → Option String
  packageName : Option String
  userToken : Option String

/-- JS `a || b || …` over possibly-absent strings: the first value that is
neither absent nor the empty string (both are falsy). -/
def firstTruthy : List (Option String) → Option String
  | [] => none
  | x :: rest =>
    match x with
    | some s => if s = "" then firstTruthy rest else some s
    | none => firstTruthy rest

/-- `DEFAULT_URL` (`src/utils/shared.ts`). -/
def DEFAULT_URL : String := "https://app.shelve.cloud"

/-- `url.replace(/\/+$/, '')`: strip every trailing slash. -/
def stripTrailingSlashes (url : String) : String :=
  ⟨(url.data.reverse.dropWhile (fun c => c = '/')).reverse⟩

/-- `resolveShelveConfig` (`src/providers/shelve.ts`): layered resolution
with JS `||` chaining, failing fast with the code's exact messages. -/
def resolveShelveConfig (options : ShelveProviderOptions) (src : ResolveSources)
    (isDev : Bool) : Except String ResolvedShelveConfig :=
  match firstTruthy [options.project, src.env "SHELVE_PROJECT", src.packageName] with
  | none => .error "[safe-runtime-config] Shelve project name required. Set in nuxt.config or package.json name"
  | some project =>
    match firstTruthy [options.slug, options.team, src.env "SHELVE_TEAM",
        src.env "SHELVE_TEAM_SLUG"] with
    | none => .error "[safe-runtime-config] Shelve team slug required. Set in nuxt.config or SHELVE_TEAM env"
    | some slug =>
      let environment := (firstTruthy [options.environment, src.env "SHELVE_ENV",
        some (if isDev then "development" else "production")]).getD ""
      let url := (firstTruthy [options.url, src.env "SHELVE_URL",
        some DEFAULT_URL]).getD ""
      match firstTruthy [src.env "SHELVE_TOKEN", src.userToken] with
      | none => .error "[safe-runtime-config] Shelve token required. Set SHELVE_TOKEN env or run `shelve login`"
      | some token =>
        .ok { project := project, slug := slug, environment := environment,
              url := stripTrailingSlashes url, token := token }

/-- `ShelveProject` (`src/types.ts`). -/
structure ShelveProject where
  id : Nat
  name : String
  deriving Repr, DecidableEq

/-- `ShelveEnvironment` (`src/types.ts`). -/
structure ShelveEnvironment where
  id : Nat
  name : String
  deriving Repr, DecidableEq

/-- A transport error as `ofetch` raises it: an optional HTTP status code
(`getStatusCode` reads `error.statusCode` when present) and the message
`getErrorMessage` extracts. -/
structure FetchError where
  statusCode : Option Nat
  message : String
  deriving Repr, DecidableEq

/-- The error message `fetchProject` raises on a 400/404 response. -/
def projectNotFoundMsg (config : ResolvedShelveConfig) : String :=
  "[safe-runtime-config] Project '" ++ config.project ++ "' not found in team '"
    ++ config.slug ++ "'. Run `shelve create " ++ config.project ++ "`"

/-- The error message `fetchProject` raises on any other transport error. -/
def fetchFailedMsg (e : FetchError) : String :=
  "[safe-runtime-config] Failed to fetch project: " ++ e.message

/-- The error-mapping of `fetchProject` (`src/providers/shelve.ts`), over
the raw outcome of the underlying `$fetch` call. -/
def fetchProjectResult (config : ResolvedShelveConfig)
    (outcome : Except FetchError ShelveProject) : Except String ShelveProject :=
  match outcome with
  | .ok p => .ok p
  | .error e =>
    if e.statusCode = some 400 ∨ e.statusCode = some 404 then
      .error (projectNotFoundMsg config)
    else
      .error (fetchFailedMsg e)

/-- The error-mapping of `fetchEnvironment`: every failure becomes the
`Environment not found` message. -/
def fetchEnvironmentResult (config : ResolvedShelveConfig)
    (outcome : Except FetchError ShelveEnvironment) :
    Except String ShelveEnvironment :=
  match outcome with
  | .ok e => .ok e
  | .error e =>
    .error ("[safe-runtime-config] Environment '" ++ config.environment
      ++ "' not found: " ++ e.message)

/-- The three remote responses a fetch round would see (the variables call
is addressed by the ids the first two calls resolve). -/
structure ShelveRemote where
  projectOutcome : Except FetchError ShelveProject
  environmentOutcome : Except FetchError ShelveEnvironment
  variablesOutcome : Nat → Nat → Except FetchError (List EnvVar)

/-- A `secretsCache` entry: `{ data, expires }`. -/
structure CacheEntry where
  data : TransformedConfig
  expires : Nat
  deriving Repr

/-- The module-level `secretsCache` `Map`, as explicit state. -/
abbrev SecretsCache := List (String × CacheEntry)

/-- JS `Map.get`. -/
def cacheGet (cache : SecretsCache) (k : String) : Option CacheEntry :=
  match cache with
  | [] => none
  | (k', e) :: rest => if k' = k then some e else cacheGet rest k

/-- JS `Map.set`: update in place or append. -/
def cacheSet (cache : SecretsCache) (k : String) (e : CacheEntry) :
    SecretsCache :=
  match cache with
  | [] => [(k, e)]
  | (k', e') :: rest =>
    if k' = k then (k, e) :: rest else (k', e') :: cacheSet rest k e

/-- `CACHE_TTL` (30 s, `src/providers/shelve.ts`). -/
def CACHE_TTL : Nat := 30000

/-- The composite cache key
`slug:project:environment:tokenDigest`; the SHA-256-based token digest is
an abstract parameter. -/
def cacheKeyOf (digest : String → String) (config : ResolvedShelveConfig) :
    String :=
  config.slug ++ ":" ++ config.project ++ ":" ++ config.environment ++ ":"
    ++ digest config.token

/-- The outcome of one `fetchShelveSecrets` call: its returned (or thrown)
value, the cache state it leaves behind, and how many remote `$fetch`
invocations it made. -/
structure FetchRound where
  result : Except String TransformedConfig
  cache : SecretsCache
  remoteCalls : Nat
  deriving Repr

/-- `fetchShelveSecrets` (`src/providers/shelve.ts`): look the composite
key up when `useCache` is set and the entry is fresh, otherwise run the
three-call sequence, transform, and unconditionally store the result with
a fresh TTL.  A strict-mode `TypeError` raised by `transformEnvVars` is
modelled as an error result (it propagates before the cache write). -/
def fetchFresh (digest : String → String) (remote : ShelveRemote)
    (now : Nat) (config : ResolvedShelveConfig) (cache : SecretsCache) :
    FetchRound :=
  match fetchProjectResult config remote.projectOutcome with
  | .error msg => ⟨.error msg, cache, 1⟩
  | .ok proj =>
    match fetchEnvironmentResult config remote.environmentOutcome with
    | .error msg => ⟨.error msg, cache, 2⟩
    | .ok env =>
      match remote.variablesOutcome proj.id env.id with
      | .error e => ⟨.error e.message, cache, 3⟩
      | .ok vars =>
        match transformEnvVars vars with
        | none => ⟨.error "TypeError: cannot create property on string", cache, 3⟩
        | some t =>
          ⟨.ok t, cacheSet cache (cacheKeyOf digest config) ⟨t, now + CACHE_TTL⟩, 3⟩

def fetchShelveSecrets (digest : String → String) (remote : ShelveRemote)
    (now : Nat) (config : ResolvedShelveConfig) (useCache : Bool)
    (cache : SecretsCache) : FetchRound :=
  if useCache then
    match cacheGet cache (cacheKeyOf digest config) with
    | some entry =>
      if entry.expires > now then ⟨.ok entry.data, cache, 0⟩
      else fetchFresh digest remote now config cache
    | none => fetchFresh digest remote now config cache
  else fetchFresh digest remote now config cache

theorem string_eq_of_data_eq {s t : String} (h : s.data = t.data) : s = t := by
  cases s
  cases t
  simp_all

/-- C6: the project-lookup failure mapping: HTTP 400/404 yields the
ProjectNotFound-class message naming both the project and the team slug;
any other transport error yields the FetchFailed-class message carrying
the underlying error message. -/
theorem C6_fetchProject_error_mapping (config : ResolvedShelveConfig)
    (e : FetchError) :
    ((e.statusCode = some 400 ∨ e.statusCode = some 404) →
      fetchProjectResult config (Except.error e) =
        Except.error (projectNotFoundMsg config) ∧
      config.project.data <:+: (projectNotFoundMsg config).data ∧
      config.slug.data <:+: (projectNotFoundMsg config).data) ∧
    ((e.statusCode ≠ some 400 ∧ e.statusCode ≠ some 404) →
      fetchProjectResult config (Except.error e) =
        Except.error (fetchFailedMsg e) ∧
      e.message.data <:+: (fetchFailedMsg e).data) := by
  constructor
  · intro hst
    refine ⟨by simp [fetchProjectResult, hst], ?_, ?_⟩
    · refine ⟨"[safe-runtime-config] Project '".data,
        ("' not found in team '" ++ config.slug ++ "'. Run `shelve create "
          ++ config.project ++ "`").data, ?_⟩
      show _ ++ _ ++ _ = (_ : List Char)
      simp only [projectNotFoundMsg]
      change _ = (_ : List Char)
      simp [List.append_assoc]
    · refine ⟨("[safe-runtime-config] Project '" ++ config.project
          ++ "' not found in team '").data,
        ("'. Run `shelve create " ++ config.project ++ "`").data, ?_⟩
      show _ ++ _ ++ _ = (_ : List Char)
      simp only [projectNotFoundMsg]
      change _ = (_ : List Char)
      simp [List.append_assoc]
  · intro hst
    refine ⟨?_, ?_⟩
    · have : ¬(e.statusCode = some 400 ∨ e.statusCode = some 404) := by
        intro hh
        rcases hh with hh | hh
        · exact hst.1 hh
        · exact hst.2 hh
      simp [fetchProjectResult, this]
    · refine ⟨"[safe-runtime-config] Failed to fetch project: ".data, [], ?_⟩
      show _ ++ _ ++ _ = (_ : List Char)
      simp [fetchFailedMsg]

/-- Witness for C6: a 404 error maps to ProjectNotFound, a plain network
error maps to FetchFailed. -/
theorem C6_fetchProject_error_mapping_witness :
    fetchProjectResult ⟨"my-project", "my-team", "development", "u", "tok"⟩
        (Except.error ⟨some 404, "Not Found"⟩) =
      Except.error (projectNotFoundMsg
        ⟨"my-project", "my-team", "development", "u", "tok"⟩) ∧
    fetchProjectResult ⟨"my-project", "my-team", "development", "u", "tok"⟩
        (Except.error ⟨none, "Network error"⟩) =
      Except.error (fetchFailedMsg ⟨none, "Network error"⟩) :=
  ⟨((C6_fetchProject_error_mapping _ ⟨some 404, "Not Found"⟩).1
      (Or.inr rfl)).1,
   ((C6_fetchProject_error_mapping _ ⟨none, "Network error"⟩).2
      ⟨by decide, by decide⟩).1⟩

/-- C2 counterexample: a successful `fetchShelveSecrets` call with
`useCache = false` writes the cache entry for its composite key; the cache
is not left unchanged. -/
theorem C2_counterexample :
    (fetchShelveSecrets (fun _ => "d")
        ⟨Except.ok ⟨1, "p"⟩, Except.ok ⟨2, "dev"⟩,
         fun _ _ => Except.ok [⟨"API_KEY", "secret"⟩]⟩
        0 ⟨"p", "t", "dev", "u", "tok"⟩ false []).cache =
      [("t:p:dev:d", ⟨[("apiKey", CVal.str "secret")], 30000⟩)] ∧
    [("t:p:dev:d", (⟨[("apiKey", CVal.str "secret")], 30000⟩ : CacheEntry))] ≠
      ([] : SecretsCache) :=
  ⟨rfl, by simp⟩

/-- C2 amended: with `useCache = false` the cache read is bypassed — the
call's result is independent of the cache contents — but a successful
fetch still writes (or overwrites) the entry for the composite key with a
fresh TTL. -/
theorem C2_fetchShelveSecrets_no_cache_read_but_write
    (digest : String → String) (remote : ShelveRemote) (now : Nat)
    (config : ResolvedShelveConfig) :
    (∀ cache cache',
      (fetchShelveSecrets digest remote now config false cache).result =
        (fetchShelveSecrets digest remote now config false cache').result) ∧
    (∀ cache t,
      (fetchShelveSecrets digest remote now config false cache).result =
        Except.ok t →
      (fetchShelveSecrets digest remote now config false cache).cache =
        cacheSet cache (cacheKeyOf digest config) ⟨t, now + CACHE_TTL⟩) := by
  constructor
  · intro cache cache'
    simp only [fetchShelveSecrets, Bool.false_eq_true, if_false]
    unfold fetchFresh
    rcases h1 : fetchProjectResult config remote.projectOutcome with msg | proj
    · simp only [h1]
    · rcases h2 : fetchEnvironmentResult config remote.environmentOutcome with msg | env
      · simp only [h1, h2]
      · rcases h3 : remote.variablesOutcome proj.id env.id with e | vars
        · simp only [h1, h2, h3]
        · rcases h4 : transformEnvVars vars with _ | t <;>
            simp only [h1, h2, h3, h4]
  · intro cache t h
    simp only [fetchShelveSecrets, Bool.false_eq_true, if_false] at h ⊢
    unfold fetchFresh at h ⊢
    rcases h1 : fetchProjectResult config remote.projectOutcome with msg | proj <;>
      simp only [h1] at h ⊢
    · cases h
    · rcases h2 : fetchEnvironmentResult config remote.environmentOutcome with msg | env <;>
        simp only [h2] at h ⊢
      · cases h
      · rcases h3 : remote.variablesOutcome proj.id env.id with e | vars <;>
          simp only [h3] at h ⊢
        · cases h
        · rcases h4 : transformEnvVars vars with _ | t' <;>
            simp only [h4] at h ⊢
          · cases h
          · simp only [Except.ok.injEq] at h
            subst h
            rfl

/-- Witness for C2 (amended) at a concrete run. -/
theorem C2_fetchShelveSecrets_no_cache_read_but_write_witness :
    (fetchShelveSecrets (fun _ => "d")
        ⟨Except.ok ⟨1, "p"⟩, Except.ok ⟨2, "dev"⟩,
         fun _ _ => Except.ok [⟨"API_KEY", "secret"⟩]⟩
        0 ⟨"p", "t", "dev", "u", "tok"⟩ false []).result =
      (fetchShelveSecrets (fun _ => "d")
        ⟨Except.ok ⟨1, "p"⟩, Except.ok ⟨2, "dev"⟩,
         fun _ _ => Except.ok [⟨"API_KEY", "secret"⟩]⟩
        0 ⟨"p", "t", "dev", "u", "tok"⟩ false
        [("t:p:dev:d", ⟨[], 99999⟩)]).result ∧
    (fetchShelveSecrets (fun _ => "d")
        ⟨Except.ok ⟨1, "p"⟩, Except.ok ⟨2, "dev"⟩,
         fun _ _ => Except.ok [⟨"API_KEY", "secret"⟩]⟩
        0 ⟨"p", "t", "dev", "u", "tok"⟩ false []).cache =
      cacheSet [] (cacheKeyOf (fun _ => "d") ⟨"p", "t", "dev", "u", "tok"⟩)
        ⟨[("apiKey", CVal.str "secret")], 0 + CACHE_TTL⟩ :=
  ⟨(C2_fetchShelveSecrets_no_cache_read_but_write (fun _ => "d") _ 0 _).1
      [] [("t:p:dev:d", ⟨[], 99999⟩)],
   (C2_fetchShelveSecrets_no_cache_read_but_write (fun _ => "d") _ 0 _).2
      [] [("apiKey", CVal.str "secret")] rfl⟩

theorem fetchShelveSecrets_hit (digest : String → String)
    (remote : ShelveRemote) (now : Nat) (config : ResolvedShelveConfig)
    (cache : SecretsCache) (entry : CacheEntry)
    (hget : cacheGet cache (cacheKeyOf digest config) = some entry)
    (hexp : entry.expires > now) :
    fetchShelveSecrets digest remote now config true cache =
      ⟨Except.ok entry.data, cache, 0⟩ := by
  simp [fetchShelveSecrets, hget, hexp]

theorem fetchShelveSecrets_success_empty (digest : String → String)
    (remote : ShelveRemote) (now : Nat) (config : ResolvedShelveConfig)
    (t : TransformedConfig)
    (h : (fetchShelveSecrets digest remote now config true []).result =
      Except.ok t) :
    fetchShelveSecrets digest remote now config true [] =
      ⟨Except.ok t, [(cacheKeyOf digest config, ⟨t, now + CACHE_TTL⟩)], 3⟩ := by
  simp only [fetchShelveSecrets, cacheGet] at h ⊢
  unfold fetchFresh at h ⊢
  rcases h1 : fetchProjectResult config remote.projectOutcome with msg | proj <;>
    simp only [h1] at h ⊢
  · cases h
  · rcases h2 : fetchEnvironmentResult config remote.environmentOutcome with msg | env <;>
      simp only [h2] at h ⊢
    · cases h
    · rcases h3 : remote.variablesOutcome proj.id env.id with e | vars <;>
        simp only [h3] at h ⊢
      · cases h
      · rcases h4 : transformEnvVars vars with _ | t'
        · rw [h4] at h
          cases h
        · simp only [h4, if_true] at h ⊢
          simp only [Except.ok.injEq] at h
          subst h
          rfl

/-- C4: a `useCache = true` call finding a non-expired entry for the
composite key returns it without any remote call; two such fetches for the
same resolved identity within the TTL window issue exactly one remote call
triple; and two identities differing only in credential use distinct cache
keys, so the second cannot be served from the first's entry. -/
theorem C4_fetchShelveSecrets_cache (digest : String → String)
    (remote remote2 : ShelveRemote) (now now2 : Nat)
    (config config' : ResolvedShelveConfig) :
    (∀ cache entry, cacheGet cache (cacheKeyOf digest config) = some entry →
      entry.expires > now →
      fetchShelveSecrets digest remote now config true cache =
        ⟨Except.ok entry.data, cache, 0⟩) ∧
    (∀ t, (fetchShelveSecrets digest remote now config true []).result =
        Except.ok t →
      now2 < now + CACHE_TTL →
      (fetchShelveSecrets digest remote2 now2 config true
          (fetchShelveSecrets digest remote now config true []).cache).result =
        Except.ok t ∧
      (fetchShelveSecrets digest remote now config true []).remoteCalls +
        (fetchShelveSecrets digest remote2 now2 config true
          (fetchShelveSecrets digest remote now config true []).cache).remoteCalls
        = 3) ∧
    (config'.slug = config.slug → config'.project = config.project →
      config'.environment = config.environment →
      digest config'.token ≠ digest config.token →
      cacheKeyOf digest config ≠ cacheKeyOf digest config' ∧
      (∀ t, (fetchShelveSecrets digest remote now config true []).result =
          Except.ok t →
        cacheGet (fetchShelveSecrets digest remote now config true []).cache
          (cacheKeyOf digest config') = none)) := by
  refine ⟨fun cache entry hget hexp =>
    fetchShelveSecrets_hit digest remote now config cache entry hget hexp,
    ?_, ?_⟩
  · intro t h hwin
    have hrd := fetchShelveSecrets_success_empty digest remote now config t h
    rw [hrd]
    have hget : cacheGet [(cacheKeyOf digest config,
        (⟨t, now + CACHE_TTL⟩ : CacheEntry))] (cacheKeyOf digest config) =
        some ⟨t, now + CACHE_TTL⟩ := by
      simp [cacheGet]
    have hhit := fetchShelveSecrets_hit digest remote2 now2 config
      [(cacheKeyOf digest config, ⟨t, now + CACHE_TTL⟩)] ⟨t, now + CACHE_TTL⟩
      hget (by simpa using hwin)
    rw [hhit]
    exact ⟨rfl, rfl⟩
  · intro hs hp he hdig
    have hkeys : cacheKeyOf digest config ≠ cacheKeyOf digest config' := by
      intro hk
      unfold cacheKeyOf at hk
      rw [hs, hp, he] at hk
      have hdata : (config.slug ++ ":" ++ config.project ++ ":"
          ++ config.environment ++ ":").data ++ (digest config.token).data =
          (config.slug ++ ":" ++ config.project ++ ":"
          ++ config.environment ++ ":").data ++ (digest config'.token).data := by
        have := congrArg String.data hk
        simpa [List.append_assoc] using this
      have := List.append_cancel_left hdata
      exact hdig (string_eq_of_data_eq this).symm
    refine ⟨hkeys, fun t h => ?_⟩
    have hrd := fetchShelveSecrets_success_empty digest remote now config t h
    rw [hrd]
    simp [cacheGet, hkeys]

/-- Witness for C4 at a concrete pair of fetches. -/
theorem C4_fetchShelveSecrets_cache_witness :
    (fetchShelveSecrets (fun tok => tok) ⟨Except.ok ⟨1, "p"⟩,
        Except.ok ⟨2, "dev"⟩, fun _ _ => Except.ok [⟨"KEY", "v1"⟩]⟩
        100 ⟨"p", "t", "dev", "u", "tok1"⟩ true
        [("t:p:dev:tok1", ⟨[("key", CVal.str "cached")], 200⟩)]) =
      ⟨Except.ok [("key", CVal.str "cached")],
        [("t:p:dev:tok1", ⟨[("key", CVal.str "cached")], 200⟩)], 0⟩ ∧
    cacheKeyOf (fun tok => tok) ⟨"p", "t", "dev", "u", "tok1"⟩ ≠
      cacheKeyOf (fun tok => tok) ⟨"p", "t", "dev", "u", "tok2"⟩ :=
  ⟨(C4_fetchShelveSecrets_cache (fun tok => tok)
      ⟨Except.ok ⟨1, "p"⟩, Except.ok ⟨2, "dev"⟩,
        fun _ _ => Except.ok [⟨"KEY", "v1"⟩]⟩
      ⟨Except.ok ⟨1, "p"⟩, Except.ok ⟨2, "dev"⟩,
        fun _ _ => Except.ok [⟨"KEY", "v1"⟩]⟩
      100 100 ⟨"p", "t", "dev", "u", "tok1"⟩
      ⟨"p", "t", "dev", "u", "tok2"⟩).1
      [("t:p:dev:tok1", ⟨[("key", CVal.str "cached")], 200⟩)]
      ⟨[("key", CVal.str "cached")], 200⟩ rfl (by decide),
   ((C4_fetchShelveSecrets_cache (fun tok => tok)
      ⟨Except.ok ⟨1, "p"⟩, Except.ok ⟨2, "dev"⟩,
        fun _ _ => Except.ok [⟨"KEY", "v1"⟩]⟩
      ⟨Except.ok ⟨1, "p"⟩, Except.ok ⟨2, "dev"⟩,
        fun _ _ => Except.ok [⟨"KEY", "v1"⟩]⟩
      100 100 ⟨"p", "t", "dev", "u", "tok1"⟩
      ⟨"p", "t", "dev", "u", "tok2"⟩).2.2
      rfl rfl rfl (by decide)).1⟩

/-! ### Claim C5: resolver precedence -/

/-- Is an optional string falsy in JS (`undefined`/`null` or empty)? -/
def isBlank : Option String → Bool
  | none => true
  | some s => s = ""

theorem firstTruthy_cons_truthy (s : String) (rest : List (Option String))
    (h : s ≠ "") : firstTruthy (some s :: rest) = some s := by
  simp [firstTruthy, h]

theorem firstTruthy_cons_blank (x : Option String) (rest : List (Option String))
    (h : isBlank x = true) : firstTruthy (x :: rest) = firstTruthy rest := by
  cases x with
  | none => rfl
  | some s =>
    simp only [isBlank, decide_eq_true_eq] at h
    simp [firstTruthy, h]

/-- C5: each resolvable field resolves with strict precedence — explicit
option over environment variable over fallback source (`package.json` name
for the project, the `~/.shelve` rc-file for the credential, the dev/prod
default for the environment, the default endpoint for the url; the
credential has no explicit-option source) — and when no source yields a
value for project, team slug or credential, resolution fails with the
message naming that field. -/
theorem C5_resolveShelveConfig_precedence (options : ShelveProviderOptions)
    (src : ResolveSources) (isDev : Bool) :
    (∀ cfg, resolveShelveConfig options src isDev = Except.ok cfg →
      ((∀ p, options.project = some p → p ≠ "" → cfg.project = p) ∧
       (isBlank options.project = true →
         ∀ p, src.env "SHELVE_PROJECT" = some p → p ≠ "" → cfg.project = p) ∧
       (isBlank options.project = true →
         isBlank (src.env "SHELVE_PROJECT") = true →
         ∀ p, src.packageName = some p → p ≠ "" → cfg.project = p)) ∧
      ((∀ p, options.slug = some p → p ≠ "" → cfg.slug = p) ∧
       (isBlank options.slug = true →
         ∀ p, options.team = some p → p ≠ "" → cfg.slug = p) ∧
       (isBlank options.slug = true → isBlank options.team = true →
         ∀ p, src.env "SHELVE_TEAM" = some p → p ≠ "" → cfg.slug = p) ∧
       (isBlank options.slug = true → isBlank options.team = true →
         isBlank (src.env "SHELVE_TEAM") = true →
         ∀ p, src.env "SHELVE_TEAM_SLUG" = some p → p ≠ "" → cfg.slug = p)) ∧
      ((∀ p, options.environment = some p → p ≠ "" → cfg.environment = p) ∧
       (isBlank options.environment = true →
         ∀ p, src.env "SHELVE_ENV" = some p → p ≠ "" → cfg.environment = p) ∧
       (isBlank options.environment = true →
         isBlank (src.env "SHELVE_ENV") = true →
         cfg.environment = if isDev then "development" else "production")) ∧
      ((∀ p, options.url = some p → p ≠ "" → cfg.url = stripTrailingSlashes p) ∧
       (isBlank options.url = true →
         ∀ p, src.env "SHELVE_URL" = some p → p ≠ "" →
           cfg.url = stripTrailingSlashes p) ∧
       (isBlank options.url = true → isBlank (src.env "SHELVE_URL") = true →
         cfg.url = stripTrailingSlashes DEFAULT_URL)) ∧
      ((∀ p, src.env "SHELVE_TOKEN" = some p → p ≠ "" → cfg.token = p) ∧
       (isBlank (src.env "SHELVE_TOKEN") = true →
         ∀ p, src.userToken = some p → p ≠ "" → cfg.token = p))) ∧
    ((isBlank options.project = true →
      isBlank (src.env "SHELVE_PROJECT") = true →
      isBlank src.packageName = true →
      resolveShelveConfig options src isDev = Except.error
        "[safe-runtime-config] Shelve project name required. Set in nuxt.config or package.json name") ∧
     (∀ p, firstTruthy [options.project, src.env "SHELVE_PROJECT",
        src.packageName] = some p →
      isBlank options.slug = true → isBlank options.team = true →
      isBlank (src.env "SHELVE_TEAM") = true →
      isBlank (src.env "SHELVE_TEAM_SLUG") = true →
      resolveShelveConfig options src isDev = Except.error
        "[safe-runtime-config] Shelve team slug required. Set in nuxt.config or SHELVE_TEAM env") ∧
     (∀ p q, firstTruthy [options.project, src.env "SHELVE_PROJECT",
        src.packageName] = some p →
      firstTruthy [options.slug, options.team, src.env "SHELVE_TEAM",
        src.env "SHELVE_TEAM_SLUG"] = some q →
      isBlank (src.env "SHELVE_TOKEN") = true → isBlank src.userToken = true →
      resolveShelveConfig options src isDev = Except.error
        "[safe-runtime-config] Shelve token required. Set SHELVE_TOKEN env or run `shelve login`")) := by
  constructor
  · intro cfg hok
    rcases hP : firstTruthy [options.project, src.env "SHELVE_PROJECT",
        src.packageName] with _ | P
    · rw [resolveShelveConfig, hP] at hok
      cases hok
    · rcases hS : firstTruthy [options.slug, options.team,
          src.env "SHELVE_TEAM", src.env "SHELVE_TEAM_SLUG"] with _ | S
      · rw [resolveShelveConfig, hP, hS] at hok
        cases hok
      · rcases hT : firstTruthy [src.env "SHELVE_TOKEN", src.userToken]
            with _ | T
        · rw [resolveShelveConfig, hP, hS, hT] at hok
          cases hok
        · rw [resolveShelveConfig, hP, hS, hT] at hok
          simp only [Except.ok.injEq] at hok
          subst hok
          refine ⟨⟨?_, ?_, ?_⟩, ⟨?_, ?_, ?_, ?_⟩, ⟨?_, ?_, ?_⟩,
            ⟨?_, ?_, ?_⟩, ⟨?_, ?_⟩⟩
          · intro p hp hne
            rw [hp, firstTruthy_cons_truthy p _ hne] at hP
            exact (Option.some.inj hP).symm
          · intro hb p hp hne
            rw [firstTruthy_cons_blank _ _ hb, hp,
              firstTruthy_cons_truthy p _ hne] at hP
            exact (Option.some.inj hP).symm
          · intro hb1 hb2 p hp hne
            rw [firstTruthy_cons_blank _ _ hb1, firstTruthy_cons_blank _ _ hb2,
              hp, firstTruthy_cons_truthy p _ hne] at hP
            exact (Option.some.inj hP).symm
          · intro p hp hne
            rw [hp, firstTruthy_cons_truthy p _ hne] at hS
            exact (Option.some.inj hS).symm
          · intro hb p hp hne
            rw [firstTruthy_cons_blank _ _ hb, hp,
              firstTruthy_cons_truthy p _ hne] at hS
            exact (Option.some.inj hS).symm
          · intro hb1 hb2 p hp hne
            rw [firstTruthy_cons_blank _ _ hb1, firstTruthy_cons_blank _ _ hb2,
              hp, firstTruthy_cons_truthy p _ hne] at hS
            exact (Option.some.inj hS).symm
          · intro hb1 hb2 hb3 p hp hne
            rw [firstTruthy_cons_blank _ _ hb1, firstTruthy_cons_blank _ _ hb2,
              firstTruthy_cons_blank _ _ hb3, hp,
              firstTruthy_cons_truthy p _ hne] at hS
            exact (Option.some.inj hS).symm
          · intro p hp hne
            show (firstTruthy [options.environment, src.env "SHELVE_ENV",
              some (if isDev then "development" else "production")]).getD "" = p
            rw [hp, firstTruthy_cons_truthy p _ hne]
            rfl
          · intro hb p hp hne
            show (firstTruthy [options.environment, src.env "SHELVE_ENV",
              some (if isDev then "development" else "production")]).getD "" = p
            rw [firstTruthy_cons_blank _ _ hb, hp,
              firstTruthy_cons_truthy p _ hne]
            rfl
          · intro hb1 hb2
            show (firstTruthy [options.environment, src.env "SHELVE_ENV",
              some (if isDev then "development" else "production")]).getD "" = _
            rw [firstTruthy_cons_blank _ _ hb1, firstTruthy_cons_blank _ _ hb2]
            cases isDev <;> rfl
          · intro p hp hne
            show stripTrailingSlashes ((firstTruthy [options.url,
              src.env "SHELVE_URL", some DEFAULT_URL]).getD "") = _
            rw [hp, firstTruthy_cons_truthy p _ hne]
            rfl
          · intro hb p hp hne
            show stripTrailingSlashes ((firstTruthy [options.url,
              src.env "SHELVE_URL", some DEFAULT_URL]).getD "") = _
            rw [firstTruthy_cons_blank _ _ hb, hp,
              firstTruthy_cons_truthy p _ hne]
            rfl
          · intro hb1 hb2
            show stripTrailingSlashes ((firstTruthy [options.url,
              src.env "SHELVE_URL", some DEFAULT_URL]).getD "") = _
            rw [firstTruthy_cons_blank _ _ hb1, firstTruthy_cons_blank _ _ hb2]
            rfl
          · intro p hp hne
            rw [hp, firstTruthy_cons_truthy p _ hne] at hT
            exact (Option.some.inj hT).symm
          · intro hb p hp hne
            rw [firstTruthy_cons_blank _ _ hb, hp,
              firstTruthy_cons_truthy p _ hne] at hT
            exact (Option.some.inj hT).symm
  · refine ⟨?_, ?_, ?_⟩
    · intro hb1 hb2 hb3
      have hP : firstTruthy [options.project, src.env "SHELVE_PROJECT",
          src.packageName] = none := by
        rw [firstTruthy_cons_blank _ _ hb1, firstTruthy_cons_blank _ _ hb2,
          firstTruthy_cons_blank _ _ hb3]
        rfl
      rw [resolveShelveConfig, hP]
    · intro p hP hb1 hb2 hb3 hb4
      have hS : firstTruthy [options.slug, options.team,
          src.env "SHELVE_TEAM", src.env "SHELVE_TEAM_SLUG"] = none := by
        rw [firstTruthy_cons_blank _ _ hb1, firstTruthy_cons_blank _ _ hb2,
          firstTruthy_cons_blank _ _ hb3, firstTruthy_cons_blank _ _ hb4]
        rfl
      rw [resolveShelveConfig, hP, hS]
    · intro p q hP hS hb1 hb2
      have hT : firstTruthy [src.env "SHELVE_TOKEN", src.userToken] = none := by
        rw [firstTruthy_cons_blank _ _ hb1, firstTruthy_cons_blank _ _ hb2]
        rfl
      rw [resolveShelveConfig, hP, hS, hT]

/-- Witness for C5: an explicit project option beats an environment value,
the `team` alias resolves the slug, the environment falls back to the dev
default, the url comes from the environment (trailing slash stripped), the
credential comes from the rc-file; and fully-unresolvable inputs fail with
the project message. -/
theorem C5_resolveShelveConfig_precedence_witness :
    (⟨"projOpt", "teamOpt", "development", "https://x.io", "rcTok"⟩ :
        ResolvedShelveConfig).project = "projOpt" ∧
    (⟨"projOpt", "teamOpt", "development", "https://x.io", "rcTok"⟩ :
        ResolvedShelveConfig).slug = "teamOpt" ∧
    (⟨"projOpt", "teamOpt", "development", "https://x.io", "rcTok"⟩ :
        ResolvedShelveConfig).environment =
      (if true then "development" else "production") ∧
    (⟨"projOpt", "teamOpt", "development", "https://x.io", "rcTok"⟩ :
        ResolvedShelveConfig).url = stripTrailingSlashes "https://x.io/" ∧
    (⟨"projOpt", "teamOpt", "development", "https://x.io", "rcTok"⟩ :
        ResolvedShelveConfig).token = "rcTok" ∧
    resolveShelveConfig ⟨none, none, none, none, none⟩
        ⟨fun _ => none, none, none⟩ false = Except.error
      "[safe-runtime-config] Shelve project name required. Set in nuxt.config or package.json name" := by
  have h := C5_resolveShelveConfig_precedence
    ⟨some "projOpt", none, some "teamOpt", none, none⟩
    ⟨fun k => if k = "SHELVE_PROJECT" then some "projEnv"
      else if k = "SHELVE_URL" then some "https://x.io/" else none,
     some "pkgName", some "rcTok"⟩ true
  have hfail := (C5_resolveShelveConfig_precedence
    ⟨none, none, none, none, none⟩ ⟨fun _ => none, none, none⟩ false).2.1
    rfl rfl rfl
  have hok := h.1 ⟨"projOpt", "teamOpt", "development", "https://x.io", "rcTok"⟩ rfl
  exact ⟨hok.1.1 "projOpt" rfl (by decide),
    hok.2.1.2.1 rfl "teamOpt" rfl (by decide),
    hok.2.2.1.2.2 rfl rfl,
    hok.2.2.2.1.2.1 rfl "https://x.io/" rfl (by decide),
    hok.2.2.2.2.2 rfl "rcTok" rfl (by decide),
    hfail⟩

/-! ## The validation orchestrator (`src/module.ts`)

`validateRuntimeConfig` is effectful (logging, throwing); it is modelled as
a pure function returning the raised error (if any), the log lines emitted,
and whether the schema's validate capability was invoked.  A schema value
either exposes the Standard-Schema capability (`~standard.validate` is a
function — `isStandardSchema`) or it does not (`none`). -/

/-- `ErrorBehavior` (`src/types.ts`): `'throw' | 'warn' | 'ignore'`. -/
inductive ErrorBehavior where
  | throw
  | warn
  | ignore
  deriving DecidableEq, Repr

/-- One issue returned by the validate capability: an optional path (JS:
a missing `path` is falsy; present entries are reduced to their `key`) and
a message (the empty string stands for a falsy/absent message). -/
structure ValidationIssue where
  path : Option (List String)
  message : String
  deriving Repr

/-- The result of the validate capability: a success value, or issues. -/
inductive ValidationResult where
  | value
  | issues : List ValidationIssue → ValidationResult

/-- The Standard-Schema capability: `~standard.validate`. -/
structure StandardCapability (α : Type) where
  validate : α → ValidationResult

/-- `isStandardSchema` (`src/module.ts`): does the supplied schema expose
an object `~standard` member whose `validate` is a function? -/
def isStandardSchema {α : Type} (schema : Option (StandardCapability α)) :
    Bool :=
  schema.isSome

/-- `ValidateOptions` (`src/module.ts`). -/
structure ValidateOptions where
  onError : ErrorBehavior
  logSuccess : Bool
  deriving Repr

/-- A log line: its level and text. -/
inductive LogLevel where
  | error
  | warn
  | success
  deriving DecidableEq, Repr

/-- The observable outcome of one `validateRuntimeConfig` call. -/
structure ValidateOutcome where
  thrown : Option String
  logs : List (LogLevel × String)
  invokedValidation : Bool

/-- `formatIssue` (`src/module.ts`): dot-join the path (or `root` when the
path is absent), then the message (or `Validation error` when falsy). -/
def formatIssue (issue : ValidationIssue) : String :=
  (match issue.path with
   | some ps => String.intercalate "." ps
   | none => "root") ++ ": " ++
  (if issue.message = "" then "Validation error" else issue.message)

/-- The numbered error lines of a failed validation. -/
def errorLines (issues : List ValidationIssue) : List String :=
  issues.mapIdx (fun i issue =>
    "  " ++ toString (i + 1) ++ ". " ++ formatIssue issue)

/-- `validateRuntimeConfig` (`src/module.ts`). -/
def validateRuntimeConfig {α : Type} (config : α)
    (schema : Option (StandardCapability α)) (opts : ValidateOptions) :
    ValidateOutcome :=
  match schema with
  | none =>
    match opts.onError with
    | .throw => ⟨some "Invalid schema format",
        [(.error, "Schema is not Standard Schema compatible")], false⟩
    | .warn => ⟨none, [(.warn, "Schema is not Standard Schema compatible")], false⟩
    | .ignore => ⟨none, [], false⟩
  | some cap =>
    match cap.validate config with
    | .issues issues =>
      if issues.length > 0 then
        let msg := "Validation failed!\n" ++ String.intercalate "\n" (errorLines issues)
        match opts.onError with
        | .throw => ⟨some "Runtime config validation failed", [(.error, msg)], true⟩
        | .warn => ⟨none, [(.warn, msg)], true⟩
        | .ignore => ⟨none, [], true⟩
      else
        if opts.logSuccess then ⟨none, [(.success, "Validated Runtime Config")], true⟩
        else ⟨none, [], true⟩
    | .value =>
      if opts.logSuccess then ⟨none, [(.success, "Validated Runtime Config")], true⟩
      else ⟨none, [], true⟩

/-- C7: when the schema does not expose the Standard-Schema capability,
validation is never invoked and the configured error behavior is applied
to the SchemaIncompatible condition: `throw` raises, `warn` logs a warning
and returns normally, `ignore` returns silently. -/
theorem C7_validateRuntimeConfig_incompatible {α : Type} (config : α)
    (logSuccess : Bool) :
    ((validateRuntimeConfig config none ⟨.throw, logSuccess⟩).invokedValidation
        = false ∧
      (validateRuntimeConfig config none ⟨.throw, logSuccess⟩).thrown =
        some "Invalid schema format" ∧
      (validateRuntimeConfig config none ⟨.throw, logSuccess⟩).logs =
        [(.error, "Schema is not Standard Schema compatible")]) ∧
    ((validateRuntimeConfig config none ⟨.warn, logSuccess⟩).invokedValidation
        = false ∧
      (validateRuntimeConfig config none ⟨.warn, logSuccess⟩).thrown = none ∧
      (validateRuntimeConfig config none ⟨.warn, logSuccess⟩).logs =
        [(.warn, "Schema is not Standard Schema compatible")]) ∧
    ((validateRuntimeConfig config none ⟨.ignore, logSuccess⟩).invokedValidation
        = false ∧
      (validateRuntimeConfig config none ⟨.ignore, logSuccess⟩).thrown = none ∧
      (validateRuntimeConfig config none ⟨.ignore, logSuccess⟩).logs = []) ∧
    isStandardSchema (α := α) none = false :=
  ⟨⟨rfl, rfl, rfl⟩, ⟨rfl, rfl, rfl⟩, ⟨rfl, rfl, rfl⟩, rfl⟩

/-! ## The schema introspector (`src/json-schema-to-ts.ts`) -/

/-- Modelled from the spec: the file `src/json-schema-to-ts.ts` is not among
the provided sources (only its test file and its caller are), so the
`SchemaNode` data model follows §3 of the specification: a recursive tagged
description with primitive, array, object, union, intersection, literal,
enumeration, reference and unknown variants. -/
inductive PrimKind where
  | string
  | number
  | integer
  | boolean
  | null
  deriving DecidableEq, Repr

/-- Modelled from the spec: a scalar constant (string, number or null), as
used by `const` and `enum` schema nodes. -/
inductive Scalar where
  | str : String → Scalar
  | num : Int → Scalar
  | null : Scalar
  deriving DecidableEq, Repr

/-- Modelled from the spec: a schema-description node.  In `obj`,
`additional` encodes `additionalProperties`: `none` is unset (and `true`
behaves the same), `some none` is `false`, `some (some n)` is a node. -/
inductive SchemaNode where
  | primitive : PrimKind → SchemaNode
  | arr : Option SchemaNode → SchemaNode
  | obj : List (String × SchemaNode) → List String →
      Option (Option SchemaNode) → SchemaNode
  | union : List SchemaNode → SchemaNode
  | intersection : List SchemaNode → SchemaNode
  | literal : Scalar → SchemaNode
  | enumeration : List Scalar → SchemaNode
  | reference : SchemaNode
  | unknown : SchemaNode
  deriving Repr

/-- A scalar rendered as a literal type: quoted for strings, the raw token
for numbers, `null` for null. -/
def scalarSig : Scalar → String
  | .str s => "\"" ++ s ++ "\""
  | .num n => Int.repr n
  | .null => "null"

/-- Join non-empty pieces with a separator. -/
def joinSep (sep : String) : List String → String
  | [] => ""
  | [s] => s
  | s :: rest => s ++ sep ++ joinSep sep rest

/-- Is the name a valid bare TS identifier (`[A-Za-z_$][A-Za-z0-9_$]*`)? -/
def isValidIdent (name : String) : Bool :=
  match name.data with
  | [] => false
  | c :: rest =>
    (c.isAlpha || c = '_' || c = '$') &&
      rest.all (fun d => d.isAlphanum || d = '_' || d = '$')

/-- A property name, quoted unless it is a valid bare identifier. -/
def quoteProp (name : String) : String :=
  if isValidIdent name then name else "\"" ++ name ++ "\""

mutual

/-- Modelled from the spec: `toTypeSignature` (exported as `jsonSchemaToTs`
by the missing `src/json-schema-to-ts.ts`), following §4.1 of the
specification and the behavior its test file pins down: primitives map to
scalar names (`integer` to `number`), arrays append `[]`, objects render
their properties in order (`?:` for optional ones, quoting invalid names)
or a `Record` form when no properties are declared, unions and enums join
with `|`, intersections with `&`, `const` renders the literal, and
reference/unrecognized shapes resolve to `unknown`. -/
def jsonSchemaToTs : SchemaNode → String
  | .primitive .string => "string"
  | .primitive .number => "number"
  | .primitive .integer => "number"
  | .primitive .boolean => "boolean"
  | .primitive .null => "null"
  | .arr none => "unknown[]"
  | .arr (some n) => jsonSchemaToTs n ++ "[]"
  | .obj [] _ none => "Record<string, unknown>"
  | .obj [] _ (some none) => "Record<string, never>"
  | .obj [] _ (some (some n)) => "Record<string, " ++ jsonSchemaToTs n ++ ">"
  | .obj (p :: ps) required _ => "\x7b " ++ propsSig required (p :: ps) ++ " \x7d"
  | .union [] => "unknown"
  | .union (m :: ms) => unionSig (m :: ms)
  | .intersection [] => "unknown"
  | .intersection (m :: ms) => intersectionSig (m :: ms)
  | .literal v => scalarSig v
  | .enumeration [] => "unknown"
  | .enumeration vs => joinSep " | " (vs.map scalarSig)
  | .reference => "unknown"
  | .unknown => "unknown"

/-- One object entry per property, in declaration order: `name: Sig` when
required, `name?: Sig` otherwise, invalid bare names quoted. -/
def propsSig (required : List String) : List (String × SchemaNode) → String
  | [] => ""
  | [(name, n)] =>
    quoteProp name ++ (if required.contains name then ": " else "?: ") ++
      jsonSchemaToTs n
  | (name, n) :: pr :: rest =>
    quoteProp name ++ (if required.contains name then ": " else "?: ") ++
      jsonSchemaToTs n ++ "; " ++ propsSig required (pr :: rest)

/-- Member signatures joined by the union separator. -/
def unionSig : List SchemaNode → String
  | [] => ""
  | [m] => jsonSchemaToTs m
  | m :: m' :: rest => jsonSchemaToTs m ++ " | " ++ unionSig (m' :: rest)

/-- Member signatures joined by the intersection separator. -/
def intersectionSig : List SchemaNode → String
  | [] => ""
  | [m] => jsonSchemaToTs m
  | m :: m' :: rest => jsonSchemaToTs m ++ " & " ++ intersectionSig (m' :: rest)

end

theorem strLength_append (s t : String) :
    (s ++ t).length = s.length + t.length := by
  change (s.data ++ t.data).length = s.data.length + t.data.length
  exact List.length_append _ _

theorem toDigitsCore_length_le (b : Nat) :
    ∀ (fuel n : Nat) (ds : List Char),
      ds.length ≤ (Nat.toDigitsCore b fuel n ds).length := by
  intro fuel
  induction fuel with
  | zero => intro n ds; simp [Nat.toDigitsCore]
  | succ fuel ih =>
    intro n ds
    unfold Nat.toDigitsCore
    by_cases h : n / b = 0
    · simp [h]
    · simp only [h, if_false]
      calc ds.length ≤ (Nat.digitChar (n % b) :: ds).length := by simp
        _ ≤ _ := ih _ _

theorem toDigitsCore_length_pos (b fuel n : Nat) (ds : List Char) :
    ds.length < (Nat.toDigitsCore b (fuel + 1) n ds).length := by
  unfold Nat.toDigitsCore
  by_cases h : n / b = 0
  · simp [h]
  · simp only [h, if_false]
    calc ds.length < (Nat.digitChar (n % b) :: ds).length := by simp
      _ ≤ _ := toDigitsCore_length_le b _ _ _

theorem natRepr_length_pos (n : Nat) : 0 < (Nat.repr n).length := by
  show 0 < (Nat.toDigits 10 n).asString.length
  have h : (Nat.toDigits 10 n).asString.length = (Nat.toDigits 10 n).length := rfl
  rw [h]
  have := toDigitsCore_length_pos 10 n n []
  simpa [Nat.toDigits] using this

theorem intRepr_length_pos (n : Int) : 0 < (Int.repr n).length := by
  cases n with
  | ofNat m => exact natRepr_length_pos m
  | negSucc m =>
    show 0 < ("-" ++ Nat.repr (m + 1)).length
    rw [strLength_append]
    have := natRepr_length_pos (m + 1)
    omega

theorem scalarSig_length_pos (v : Scalar) : 0 < (scalarSig v).length := by
  cases v with
  | str s =>
    show 0 < (("\"" : String) ++ s ++ "\"").length
    rw [strLength_append, strLength_append]
    have h1 : ("\"" : String).length = 1 := rfl
    omega
  | num n => exact intRepr_length_pos n
  | null => decide

theorem joinSep_length_pos (sep : String) (l : List String)
    (hmem : ∀ x ∈ l, 0 < x.length) (hne : l ≠ []) :
    0 < (joinSep sep l).length := by
  cases l with
  | nil => cases hne rfl
  | cons s rest =>
    cases rest with
    | nil =>
      have := hmem s (List.mem_cons_self s [])
      simpa [joinSep] using this
    | cons s' rest' =>
      have hs := hmem s (List.mem_cons_self s _)
      show 0 < (s ++ sep ++ joinSep sep (s' :: rest')).length
      rw [strLength_append, strLength_append]
      omega

theorem unionSig_length_pos (m : SchemaNode) (ms : List SchemaNode)
    (h : 0 < (jsonSchemaToTs m).length) :
    0 < (unionSig (m :: ms)).length := by
  cases ms with
  | nil => simpa [unionSig] using h
  | cons m' rest =>
    show 0 < (jsonSchemaToTs m ++ " | " ++ unionSig (m' :: rest)).length
    rw [strLength_append, strLength_append]
    omega

theorem intersectionSig_length_pos (m : SchemaNode) (ms : List SchemaNode)
    (h : 0 < (jsonSchemaToTs m).length) :
    0 < (intersectionSig (m :: ms)).length := by
  cases ms with
  | nil => simpa [intersectionSig] using h
  | cons m' rest =>
    show 0 < (jsonSchemaToTs m ++ " & " ++ intersectionSig (m' :: rest)).length
    rw [strLength_append, strLength_append]
    omega

theorem jsonSchemaToTs_length_pos (n : SchemaNode) :
    0 < (jsonSchemaToTs n).length := by
  have key : ∀ (k : Nat) (n : SchemaNode), sizeOf n ≤ k →
      0 < (jsonSchemaToTs n).length := by
    intro k
    induction k with
    | zero =>
      intro n hn
      exfalso
      cases n <;> simp at hn
    | succ k ih =>
      intro n hn
      cases n with
      | primitive pk => cases pk <;> decide
      | arr o =>
        cases o with
        | none => decide
        | some m =>
          show 0 < (jsonSchemaToTs m ++ "[]").length
          rw [strLength_append]
          have h2 : ("[]" : String).length = 2 := rfl
          omega
      | obj props required additional =>
        cases props with
        | nil =>
          cases additional with
          | none =>
            show 0 < ("Record<string, unknown>" : String).length
            decide
          | some o =>
            cases o with
            | none =>
              show 0 < ("Record<string, never>" : String).length
              decide
            | some m =>
              show 0 < ("Record<string, " ++ jsonSchemaToTs m ++ ">").length
              rw [strLength_append, strLength_append]
              have h2 : ("Record<string, " : String).length = 15 := rfl
              omega
        | cons p ps =>
          show 0 < ("\x7b " ++ propsSig required (p :: ps) ++ " \x7d").length
          rw [strLength_append, strLength_append]
          have h2 : ("\x7b " : String).length = 2 := rfl
          omega
      | union ms =>
        cases ms with
        | nil => decide
        | cons m ms' =>
          show 0 < (unionSig (m :: ms')).length
          refine unionSig_length_pos m ms' (ih m ?_)
          have hc : sizeOf (m :: ms') = 1 + sizeOf m + sizeOf ms' := by simp
          have hs : sizeOf (SchemaNode.union (m :: ms')) =
              1 + sizeOf (m :: ms') := by simp
          omega
      | intersection ms =>
        cases ms with
        | nil => decide
        | cons m ms' =>
          show 0 < (intersectionSig (m :: ms')).length
          refine intersectionSig_length_pos m ms' (ih m ?_)
          have hc : sizeOf (m :: ms') = 1 + sizeOf m + sizeOf ms' := by simp
          have hs : sizeOf (SchemaNode.intersection (m :: ms')) =
              1 + sizeOf (m :: ms') := by simp
          omega
      | literal v =>
        show 0 < (scalarSig v).length
        exact scalarSig_length_pos v
      | enumeration vs =>
        cases vs with
        | nil => decide
        | cons v vs' =>
          show 0 < (joinSep " | " ((v :: vs').map scalarSig)).length
          refine joinSep_length_pos _ _ ?_ (by simp)
          intro x hx
          rw [List.mem_map] at hx
          obtain ⟨y, hy, hxy⟩ := hx
          subst hxy
          exact scalarSig_length_pos y
      | reference => decide
      | unknown => decide
  exact key (sizeOf n) n (Nat.le_refl _)

/-- C9: `toTypeSignature` (the `jsonSchemaToTs` of the missing
`src/json-schema-to-ts.ts`, modelled from the spec) is total on cycle-free
SchemaNode trees and always yields a non-empty string; unrecognized shapes
(reference, unknown) yield the `unknown` signature; a primitive leaf's
signature depends only on its declared kind, with `integer` and `number`
yielding the identical signature `number`. -/
theorem C9_jsonSchemaToTs_total_nonempty :
    (∀ n : SchemaNode, 0 < (jsonSchemaToTs n).length) ∧
    jsonSchemaToTs (SchemaNode.primitive PrimKind.integer) =
      jsonSchemaToTs (SchemaNode.primitive PrimKind.number) ∧
    jsonSchemaToTs (SchemaNode.primitive PrimKind.integer) = "number" ∧
    jsonSchemaToTs SchemaNode.reference = "unknown" ∧
    jsonSchemaToTs SchemaNode.unknown = "unknown" :=
  ⟨jsonSchemaToTs_length_pos, rfl, rfl, rfl, rfl⟩

end SafeRuntimeConfig
